import Mathlib

/-!
# Search-space bookkeeping: `src/search/search_space.cc`

A shallow embedding of the search node view (`SearchNode`) and of the search
space (`SearchSpace`) of `search_space.cc`, followed by theorems about the
lifecycle transitions and about `trace_path`.

Conventions of the embedding.

* C++ `int` values are `Int`.  Signed overflow is undefined behaviour in C++,
  so the embedding describes the executions in which the sums stay in range.
* A method that mutates `info` through the view becomes a function from the
  view before the call to a `Result` holding the view after the call.
* `assert` is modelled as enabled: a failing assertion ends the call with
  `Result.assertion_failure`, which carries the state as it was at that point.
* A `const Operator *` that may be null is an `Option Operator`; `0` is `none`.
  A pointer that the code dereferences is an `Operator`.
* The unbounded loop of `trace_path` takes a fuel argument; running out of
  fuel is `none`.
* The table is a total mapping from identifiers to records.  Where a theorem
  is about a walk that can reach `NO_STATE`, the table is read through
  `checked_lookup`, which rejects `NO_STATE`; on chains of real states the two
  readings agree (`chain_trace_path_checked`).
-/

namespace Cedalion

/-! ## Collaborators that are declared outside `search_space.cc` -/

/-- Modelled from the spec: `state_id.h` is not among the sources.  A state
identifier is an integer handle issued by the state registry (§3.1). -/
structure StateID where
  value : Int
deriving DecidableEq, Repr

/-- Modelled from the spec: the sentinel `StateID::no_state` that denotes
"absent" (§3.1).  No theorem below depends on the number chosen for it. -/
def StateID.no_state : StateID := ⟨-1⟩

/-- Modelled from the spec: `operator.h` is not among the sources.  An entry of
the operator catalogue with the two members that `search_space.cc` reads,
`get_name()` and `get_cost()` (§3.2, §6).  The code stores operators by
address; the embedding identifies an operator with its catalogue entry. -/
structure Operator where
  name : String
  cost : Int
deriving DecidableEq, Repr

/-- Native cost of an operator, `Operator::get_cost()`. -/
def Operator.get_cost (op : Operator) : Int := op.cost

/-- Modelled from the spec: the cost-treatment mode `OperatorCost` is an
enumeration of the external catalogue; the core only passes it on (§3.3). -/
structure OperatorCost where
  tag : Nat
deriving DecidableEq, Repr

/-- Modelled from the spec: the two free functions of the cost policy that
`search_space.cc` calls but does not define (§4.A, §6).  They are parameters of
the embedding. -/
structure CostPolicy where
  get_adjusted_action_cost : Operator → OperatorCost → Int
  calculate_plan_cost : List Operator → Int

/-- Status of a search node, the enumeration inside `SearchNodeInfo` (§3.4). -/
inductive NodeStatus where
  | NEW
  | OPEN
  | CLOSED
  | DEAD_END
deriving DecidableEq, Repr

/-- Modelled from the spec: `search_node_info.h` is not among the sources.  The
per-state record with the fields that `search_space.cc` reads and writes
(§3.5).  `steps` is an owned pointer to a vector; `none` is the null pointer. -/
structure SearchNodeInfo where
  status : NodeStatus
  g : Int
  real_g : Int
  h : Int
  length : Int
  h_is_dirty : Bool
  parent_state_id : StateID
  creating_operator : Option Operator
  steps : Option (List Operator)
deriving DecidableEq, Repr

/-- Modelled from the spec: the default-initialised record of a state that was
never touched (§3.5: status `NEW`, numeric fields 0, flag false, no parent,
no creating operator, no steps). -/
def SearchNodeInfo.default_value : SearchNodeInfo :=
  { status := NodeStatus.NEW, g := 0, real_g := 0, h := 0, length := 0,
    h_is_dirty := false, parent_state_id := StateID.no_state,
    creating_operator := none, steps := none }

/-- Modelled from the spec: `PerStateInformation<SearchNodeInfo>` is not among
the sources.  A mapping from state identifiers to records in which every
identifier has a record, the default one until it is written (§4.B). -/
def PerStateInformation : Type := StateID → SearchNodeInfo

/-- The table in which no state was ever touched. -/
def PerStateInformation.empty : PerStateInformation :=
  fun _ => SearchNodeInfo.default_value

/-- Writing through the reference returned by `operator[]`. -/
def PerStateInformation.set (t : PerStateInformation) (id : StateID)
    (info : SearchNodeInfo) : PerStateInformation :=
  fun i => if i = id then info else t i

/-- Modelled from the spec: `state.h` is not among the sources.  Of a state
handle the code only uses `get_id()`. -/
structure State where
  id : StateID
deriving DecidableEq, Repr

/-- Accessor `State::get_id()`. -/
def State.get_id (s : State) : StateID := s.id

/-! ## Outcome of a call -/

/-- Outcome of a call that mutates a state of type `σ`: it returned and left
`s`, or an assertion failed and the state at that point was `s`. -/
inductive Result (σ : Type) where
  | ok (s : σ)
  | assertion_failure (s : σ)
deriving DecidableEq, Repr

/-- State that a call leaves behind, whichever way it ended. -/
def Result.state {σ : Type} : Result σ → σ
  | Result.ok s => s
  | Result.assertion_failure s => s

/-- Whether the call returned normally. -/
def Result.succeeded {σ : Type} : Result σ → Bool
  | Result.ok _ => true
  | Result.assertion_failure _ => false

/-- Transport of the state carried by an outcome. -/
def Result.map {σ τ : Type} (f : σ → τ) : Result σ → Result τ
  | Result.ok s => Result.ok (f s)
  | Result.assertion_failure s => Result.assertion_failure (f s)

/-! ## `SearchNode` -/

/-- Search node view: a state identifier, the record it refers to, and the
cost-treatment mode. -/
structure SearchNode where
  state_id : StateID
  info : SearchNodeInfo
  cost_type : OperatorCost
deriving DecidableEq, Repr

/-- Constructor `SearchNode::SearchNode`; `none` when its assertion fails. -/
def SearchNode.create (state_id_ : StateID) (info_ : SearchNodeInfo)
    (cost_type_ : OperatorCost) : Option SearchNode :=
  if state_id_ ≠ StateID.no_state then
    some { state_id := state_id_, info := info_, cost_type := cost_type_ }
  else none

def SearchNode.get_state_id (node : SearchNode) : StateID := node.state_id

def SearchNode.is_open (node : SearchNode) : Bool :=
  node.info.status == NodeStatus.OPEN

def SearchNode.is_closed (node : SearchNode) : Bool :=
  node.info.status == NodeStatus.CLOSED

def SearchNode.is_dead_end (node : SearchNode) : Bool :=
  node.info.status == NodeStatus.DEAD_END

def SearchNode.is_new (node : SearchNode) : Bool :=
  node.info.status == NodeStatus.NEW

def SearchNode.get_g (node : SearchNode) : Int := node.info.g

def SearchNode.get_real_g (node : SearchNode) : Int := node.info.real_g

def SearchNode.get_h (node : SearchNode) : Int := node.info.h

def SearchNode.get_length (node : SearchNode) : Int := node.info.length

def SearchNode.is_h_dirty (node : SearchNode) : Bool := node.info.h_is_dirty

def SearchNode.set_h_dirty (node : SearchNode) : Result SearchNode :=
  Result.ok { node with info := { node.info with h_is_dirty := true } }

def SearchNode.clear_h_dirty (node : SearchNode) : Result SearchNode :=
  Result.ok { node with info := { node.info with h_is_dirty := false } }

def SearchNode.open_initial (node : SearchNode) (h : Int) : Result SearchNode :=
  if node.info.status = NodeStatus.NEW then
    let info := node.info
    let info := { info with status := NodeStatus.OPEN }
    let info := { info with g := 0 }
    let info := { info with real_g := 0 }
    let info := { info with h := h }
    let info := { info with length := 0 }
    let info := { info with parent_state_id := StateID.no_state }
    let info := { info with creating_operator := none }
    Result.ok { node with info := info }
  else Result.assertion_failure node

/-- Single-operator `SearchNode::open`.  Every field of the parent is read
before the same field of `info` is written, so the result is the same when the
two views refer to one record. -/
def SearchNode.open (P : CostPolicy) (node : SearchNode) (h : Int)
    (parent_node : SearchNode) (parent_op : Operator) : Result SearchNode :=
  if node.info.status = NodeStatus.NEW then
    let info := node.info
    let info := { info with status := NodeStatus.OPEN }
    let info := { info with length := parent_node.info.length + 1 }
    let info := { info with
      g := parent_node.info.g + P.get_adjusted_action_cost parent_op node.cost_type }
    let info := { info with real_g := parent_node.info.real_g + parent_op.get_cost }
    let info := { info with h := h }
    let info := { info with parent_state_id := parent_node.get_state_id }
    let info := { info with creating_operator := some parent_op }
    Result.ok { node with info := info }
  else Result.assertion_failure node

/-- Overload of `SearchNode::open` that takes a vector of steps ("for YAHSP2").
`steps.back()` is `getLast?`: on an empty vector the C++ call is undefined, and
the embedding then stores no creating operator. -/
def SearchNode.open_steps (P : CostPolicy) (node : SearchNode) (h : Int)
    (parent_node : SearchNode) (steps : List Operator) : Result SearchNode :=
  if node.info.status = NodeStatus.NEW then
    let info := node.info
    let info := { info with status := NodeStatus.OPEN }
    let info := { info with length := parent_node.info.length + steps.length }
    let plan_cost_adj : Int :=
      steps.foldl
        (fun plan_cost_adj step =>
          plan_cost_adj + P.get_adjusted_action_cost step node.cost_type) 0
    let info := { info with g := parent_node.info.g + plan_cost_adj }
    let info := { info with
      real_g := parent_node.info.real_g + P.calculate_plan_cost steps }
    let info := { info with h := h }
    let info := { info with parent_state_id := parent_node.get_state_id }
    let info := { info with creating_operator := steps.getLast? }
    let info := { info with steps := some steps }
    Result.ok { node with info := info }
  else Result.assertion_failure node

def SearchNode.update_parent (P : CostPolicy) (node : SearchNode)
    (parent_node : SearchNode) (parent_op : Operator) : Result SearchNode :=
  if node.info.status = NodeStatus.OPEN ∨ node.info.status = NodeStatus.CLOSED then
    let info := node.info
    let info := { info with length := parent_node.info.length + 1 }
    let info := { info with
      g := parent_node.info.g + P.get_adjusted_action_cost parent_op node.cost_type }
    let info := { info with real_g := parent_node.info.real_g + parent_op.get_cost }
    let info := { info with parent_state_id := parent_node.get_state_id }
    let info := { info with creating_operator := some parent_op }
    let info := if info.steps.isSome then { info with steps := none } else info
    Result.ok { node with info := info }
  else Result.assertion_failure node

def SearchNode.reopen (P : CostPolicy) (node : SearchNode)
    (parent_node : SearchNode) (parent_op : Operator) : Result SearchNode :=
  match node.update_parent P parent_node parent_op with
  | Result.ok node =>
    Result.ok { node with info := { node.info with status := NodeStatus.OPEN } }
  | Result.assertion_failure node => Result.assertion_failure node

def SearchNode.increase_h (node : SearchNode) (h : Int) : Result SearchNode :=
  if h ≥ node.info.h then
    Result.ok { node with info := { node.info with h := h } }
  else Result.assertion_failure node

def SearchNode.close (node : SearchNode) : Result SearchNode :=
  if node.info.status = NodeStatus.OPEN then
    Result.ok { node with info := { node.info with status := NodeStatus.CLOSED } }
  else Result.assertion_failure node

def SearchNode.mark_as_dead_end (node : SearchNode) : Result SearchNode :=
  Result.ok { node with info := { node.info with status := NodeStatus.DEAD_END } }

/-! ## `SearchSpace` -/

/-- The search space: the table of records and the cost-treatment mode. -/
structure SearchSpace where
  search_node_infos : PerStateInformation
  cost_type : OperatorCost

/-- Constructor `SearchSpace::SearchSpace`: no state has been touched. -/
def SearchSpace.create (cost_type_ : OperatorCost) : SearchSpace :=
  { search_node_infos := PerStateInformation.empty, cost_type := cost_type_ }

/-- Method `SearchSpace::get_node`; `none` when the assertion of the
`SearchNode` constructor fails. -/
def SearchSpace.get_node (space : SearchSpace) (id : StateID) : Option SearchNode :=
  SearchNode.create id (space.search_node_infos id) space.cost_type

/-- The loop of `SearchSpace::trace_path`.  Each unit of fuel pays for one
iteration; `none` means the fuel ran out before the loop ended. -/
def SearchSpace.trace_path_loop (space : SearchSpace) :
    Nat → StateID → List Operator → Option (Result (List Operator))
  | 0, _, _ => none
  | fuel + 1, current_state_id, path =>
    let info := space.search_node_infos current_state_id
    match info.creating_operator with
    | none =>
      if info.parent_state_id = StateID.no_state then some (Result.ok path)
      else some (Result.assertion_failure path)
    | some op =>
      SearchSpace.trace_path_loop space fuel info.parent_state_id (path ++ [op])

/-- Method `SearchSpace::trace_path` with the output vector `path` passed in and
returned. -/
def SearchSpace.trace_path (space : SearchSpace) (fuel : Nat) (goal_state : State)
    (path : List Operator) : Option (Result (List Operator)) :=
  let current_state_id := goal_state.get_id
  if path = [] then
    match space.trace_path_loop fuel current_state_id path with
    | some (Result.ok path) => some (Result.ok path.reverse)
    | other => other
  else some (Result.assertion_failure path)

/-! ## Calls made by a search algorithm -/

/-- A call that a search algorithm makes on the view of one state.  A parent is
named by its state identifier; its view is obtained with `get_node`. -/
inductive Call where
  | open_initial (h : Int)
  | open (h : Int) (parent : StateID) (parent_op : Operator)
  | open_steps (h : Int) (parent : StateID) (steps : List Operator)
  | reopen (parent : StateID) (parent_op : Operator)
  | update_parent (parent : StateID) (parent_op : Operator)
  | increase_h (h : Int)
  | set_h_dirty
  | clear_h_dirty
  | close
  | mark_as_dead_end
deriving DecidableEq, Repr

/-- A view holds a reference to its record: what a call leaves in the view is
what the table holds for that state afterwards. -/
def SearchSpace.store (space : SearchSpace) (node : SearchNode) : SearchSpace :=
  { space with
    search_node_infos := space.search_node_infos.set node.state_id node.info }

/-- The statement `space.get_node(id).c(...)`, with `space.get_node(parent)` as
the parent view where the call takes one. -/
def SearchSpace.call (P : CostPolicy) (space : SearchSpace) (id : StateID)
    (c : Call) : Result SearchSpace :=
  match space.get_node id with
  | none => Result.assertion_failure space
  | some node =>
    match c with
    | Call.open_initial h => (node.open_initial h).map space.store
    | Call.open h parent parent_op =>
      match space.get_node parent with
      | none => Result.assertion_failure space
      | some parent_node => (node.open P h parent_node parent_op).map space.store
    | Call.open_steps h parent steps =>
      match space.get_node parent with
      | none => Result.assertion_failure space
      | some parent_node => (node.open_steps P h parent_node steps).map space.store
    | Call.reopen parent parent_op =>
      match space.get_node parent with
      | none => Result.assertion_failure space
      | some parent_node => (node.reopen P parent_node parent_op).map space.store
    | Call.update_parent parent parent_op =>
      match space.get_node parent with
      | none => Result.assertion_failure space
      | some parent_node =>
        (node.update_parent P parent_node parent_op).map space.store
    | Call.increase_h h => (node.increase_h h).map space.store
    | Call.set_h_dirty => node.set_h_dirty.map space.store
    | Call.clear_h_dirty => node.clear_h_dirty.map space.store
    | Call.close => node.close.map space.store
    | Call.mark_as_dead_end => node.mark_as_dead_end.map space.store

/-- A sequence of calls in program order; the first failing assertion ends it. -/
def SearchSpace.run (P : CostPolicy) :
    SearchSpace → List (StateID × Call) → Result SearchSpace
  | space, [] => Result.ok space
  | space, (id, c) :: rest =>
    match space.call P id c with
    | Result.ok space' => SearchSpace.run P space' rest
    | Result.assertion_failure space' => Result.assertion_failure space'

/-- Successive `increase_h` calls on one view, each acting on the record that
the call before it left (a call whose assertion fails leaves it as it was). -/
def SearchNode.increase_h_calls (node : SearchNode) (hs : List Int) : SearchNode :=
  hs.foldl (fun node h => (node.increase_h h).state) node

/-! ## Operators, states and cost policy of the end-to-end scenarios (§8) -/

def op_a : Operator := { name := "a", cost := 2 }

def op_b : Operator := { name := "b", cost := 3 }

def op_c : Operator := { name := "c", cost := 1 }

def op_x : Operator := { name := "x", cost := 2 }

def op_y : Operator := { name := "y", cost := 2 }

/-- The mode of the scenarios. -/
def scenario_mode : OperatorCost := { tag := 0 }

/-- Cost policy of the scenarios: the adjusted cost is the native cost, and the
plan cost is a makespan under which the plan `[x, y]` costs 3. -/
def scenario_policy : CostPolicy :=
  { get_adjusted_action_cost := fun op _ => op.get_cost,
    calculate_plan_cost := fun steps =>
      if steps = [op_x, op_y] then 3 else (steps.map Operator.get_cost).sum }

def s0 : StateID := { value := 0 }

def s1 : StateID := { value := 1 }

def s2 : StateID := { value := 2 }

def s3 : StateID := { value := 3 }

def s4 : StateID := { value := 4 }

/-- View of a state that was never touched. -/
def fresh_node (id : StateID) : SearchNode :=
  { state_id := id, info := SearchNodeInfo.default_value, cost_type := scenario_mode }

/-- View of the root `s0` after `open_initial(10)`. -/
def root_node : SearchNode := ((fresh_node s0).open_initial 10).state

/-- View of `s3` after scenario 4: opened from the root with the plan `[x, y]`. -/
def plan_node : SearchNode :=
  ((fresh_node s3).open_steps scenario_policy 0 root_node [op_x, op_y]).state

/-- View of `s1` after scenario 2: opened from the root with `a`. -/
def chain_node1 : SearchNode :=
  ((fresh_node s1).open scenario_policy 7 root_node op_a).state

/-- View of `s2` after scenario 2: opened from `s1` with `b`. -/
def chain_node2 : SearchNode :=
  ((fresh_node s2).open scenario_policy 0 chain_node1 op_b).state

/-- View of `s2` after scenario 2 and a `close`. -/
def closed_node2 : SearchNode := chain_node2.close.state

/-- Modelled from the spec: `calculate_plan_cost` is not among the sources.  It
returns "the native cost of the entire sequence" (§4.A, where only longer
sequences are allowed to cost other than the sum); for a sequence of one
operator the entire sequence is that operator, so its cost is the native cost
of the operator. -/
def CostPolicy.plan_cost_of_one (P : CostPolicy) : Prop :=
  ∀ op : Operator, P.calculate_plan_cost [op] = op.get_cost

/-! ## Parent chains -/

/-- The walk that the loop of `trace_path` makes from `id`: `visited` lists the
states whose records it reads, `id` first, and `ops` lists the creating
operators it meets, in root-to-`id` order.  The walk ends at a record without
creating operator and without parent. -/
inductive Chain (space : SearchSpace) : StateID → List StateID → List Operator → Prop where
  | root {id : StateID}
      (hop : (space.search_node_infos id).creating_operator = none)
      (hpar : (space.search_node_infos id).parent_state_id = StateID.no_state) :
      Chain space id [id] []
  | link {id : StateID} {op : Operator} {visited : List StateID} {ops : List Operator}
      (hop : (space.search_node_infos id).creating_operator = some op)
      (hrest : Chain space (space.search_node_infos id).parent_state_id visited ops) :
      Chain space id (id :: visited) (ops ++ [op])

/-- The calls that open a chain below `parent`: each entry `(s, h, op)` opens
`s` with the single-operator `open(h, ·, op)` from the state opened before it. -/
def chain_calls : StateID → List (StateID × Int × Operator) → List (StateID × Call)
  | _, [] => []
  | parent, (s, h, op) :: rest => (s, Call.open h parent op) :: chain_calls s rest

/-- Last state of a chain that starts at `first`. -/
def chain_end : StateID → List (StateID × Int × Operator) → StateID
  | first, [] => first
  | _, (s, _, _) :: rest => chain_end s rest

/-- The state `x` lies on the parent chain of `id`: it is `id`, or it lies on
the chain of the parent of `id` and `id` has a creating operator. -/
inductive OnChain (space : SearchSpace) (x : StateID) : StateID → Prop where
  | here : OnChain space x x
  | above {id : StateID} {op : Operator}
      (hop : (space.search_node_infos id).creating_operator = some op)
      (hrest : OnChain space x (space.search_node_infos id).parent_state_id) :
      OnChain space x id

/-- The chain of `id` ends at a root, and the operators on it are as many as
the `length` of `id` and have the `g` of `id` as the sum of their adjusted
costs. -/
def ChainMatches (P : CostPolicy) (space : SearchSpace) (id : StateID) : Prop :=
  ∃ visited ops, Chain space id visited ops ∧
    (ops.length : Int) = (space.search_node_infos id).length ∧
    (ops.map (fun op => P.get_adjusted_action_cost op space.cost_type)).sum
      = (space.search_node_infos id).g

/-- Every record with status NEW holds the default parent, creating operator,
length and g. -/
def NewIsDefault (space : SearchSpace) : Prop :=
  ∀ id, (space.search_node_infos id).status = NodeStatus.NEW →
    (space.search_node_infos id).creating_operator = none ∧
    (space.search_node_infos id).parent_state_id = StateID.no_state ∧
    (space.search_node_infos id).length = 0 ∧
    (space.search_node_infos id).g = 0

/-- Effect on the established chains of a call that links `x` to `parent` in
the table `space`.  The chain of `x` is established by the call when that of
`parent` was and `x` does not lie on it.  The chain of another state stays
established when `x` does not lie on it. -/
def relinked (space : SearchSpace) (x parent : StateID) (E : StateID → Prop)
    (id : StateID) : Prop :=
  (id = x → E parent ∧ ¬ OnChain space x parent) ∧
  (id ≠ x → E id ∧ ¬ OnChain space x id)

/-- The states whose chain is established and undisturbed after the call `c` on
`x` in the table `space`, given the set `E` of such states before the call.
The single-operator `open`, `update_parent`, `reopen` and the multi-step open
link `x` to a parent; a multi-step open establishes the chain of `x` only when
it has exactly one step.  The other calls leave every chain as it is. -/
def established_step (space : SearchSpace) (x : StateID) (c : Call)
    (E : StateID → Prop) (id : StateID) : Prop :=
  match c with
  | Call.open _ parent _ => relinked space x parent E id
  | Call.update_parent parent _ => relinked space x parent E id
  | Call.reopen parent _ => relinked space x parent E id
  | Call.open_steps _ parent steps =>
    (id = x → steps.length = 1) ∧ relinked space x parent E id
  | _ => E id

/-- The states whose chain is established and undisturbed after the calls, in
program order, from the table `space` where those states were `E`. -/
def established (P : CostPolicy) :
    SearchSpace → List (StateID × Call) → (StateID → Prop) → StateID → Prop
  | _, [], E => E
  | space, (x, c) :: rest, E =>
    established P (space.call P x c).state rest (established_step space x c E)

/-- What the record of `x` holds after a call that returned, in terms of the
table before the call. -/
def call_effect (P : CostPolicy) (space space1 : SearchSpace) (x : StateID) :
    Call → Prop
  | Call.open_initial _ =>
    (space.search_node_infos x).status = NodeStatus.NEW ∧
    (space1.search_node_infos x).creating_operator = none ∧
    (space1.search_node_infos x).parent_state_id = StateID.no_state ∧
    (space1.search_node_infos x).length = 0 ∧
    (space1.search_node_infos x).g = 0 ∧
    (space1.search_node_infos x).status ≠ NodeStatus.NEW
  | Call.open _ parent op =>
    (space1.search_node_infos x).creating_operator = some op ∧
    (space1.search_node_infos x).parent_state_id = parent ∧
    (space1.search_node_infos x).length = (space.search_node_infos parent).length + 1 ∧
    (space1.search_node_infos x).g
      = (space.search_node_infos parent).g + P.get_adjusted_action_cost op space.cost_type ∧
    (space1.search_node_infos x).status ≠ NodeStatus.NEW
  | Call.update_parent parent op =>
    (space1.search_node_infos x).creating_operator = some op ∧
    (space1.search_node_infos x).parent_state_id = parent ∧
    (space1.search_node_infos x).length = (space.search_node_infos parent).length + 1 ∧
    (space1.search_node_infos x).g
      = (space.search_node_infos parent).g + P.get_adjusted_action_cost op space.cost_type ∧
    (space1.search_node_infos x).status ≠ NodeStatus.NEW
  | Call.reopen parent op =>
    (space1.search_node_infos x).creating_operator = some op ∧
    (space1.search_node_infos x).parent_state_id = parent ∧
    (space1.search_node_infos x).length = (space.search_node_infos parent).length + 1 ∧
    (space1.search_node_infos x).g
      = (space.search_node_infos parent).g + P.get_adjusted_action_cost op space.cost_type ∧
    (space1.search_node_infos x).status ≠ NodeStatus.NEW
  | Call.open_steps _ parent steps =>
    (space1.search_node_infos x).creating_operator = steps.getLast? ∧
    (space1.search_node_infos x).parent_state_id = parent ∧
    (space1.search_node_infos x).length
      = (space.search_node_infos parent).length + steps.length ∧
    (space1.search_node_infos x).g
      = (space.search_node_infos parent).g
        + (steps.map (fun op => P.get_adjusted_action_cost op space.cost_type)).sum ∧
    (space1.search_node_infos x).status ≠ NodeStatus.NEW
  | _ =>
    (space1.search_node_infos x).creating_operator
      = (space.search_node_infos x).creating_operator ∧
    (space1.search_node_infos x).parent_state_id
      = (space.search_node_infos x).parent_state_id ∧
    (space1.search_node_infos x).length = (space.search_node_infos x).length ∧
    (space1.search_node_infos x).g = (space.search_node_infos x).g ∧
    ((space1.search_node_infos x).status = NodeStatus.NEW →
      (space.search_node_infos x).status = NodeStatus.NEW)

/-- The chain of `goal` is established and undisturbed after the calls, in
program order, from the table in which no state was touched: the call that last
linked each state of the chain to its parent was a single-operator `open`, an
`update_parent`, a `reopen` or a multi-step open with exactly one step, the
state did not lie on the chain of that parent, and no later `open`, multi-step
open, `update_parent` or `reopen` was made on a state further up the chain. -/
def ChainEstablished (P : CostPolicy) (mode : OperatorCost)
    (calls : List (StateID × Call)) (goal : StateID) : Prop :=
  established P (SearchSpace.create mode) calls (fun _ => True) goal

/-- Scenario 4 as calls: the root `s0`, then `s3` opened with the plan `[x, y]`. -/
def multi_step_calls : List (StateID × Call) :=
  [(s0, Call.open_initial 0), (s3, Call.open_steps 0 s0 [op_x, op_y])]

/-- Calls that open `s2` from `s1` before `s1` itself is opened from the root. -/
def late_parent_calls : List (StateID × Call) :=
  [(s0, Call.open_initial 0), (s2, Call.open 0 s1 op_b), (s1, Call.open 0 s0 op_a)]

/-- Scenario 3 as calls: the chain `s0 -a-> s1 -b-> s2`, then `s2` reopened from
`s0` with `c`. -/
def reopen_calls : List (StateID × Call) :=
  [(s0, Call.open_initial 10), (s1, Call.open 7 s0 op_a), (s2, Call.open 0 s1 op_b),
   (s2, Call.reopen s0 op_c)]

/-- Calls that open `s1` from the root and then reopen `s1` with itself as the
parent. -/
def self_parent_calls : List (StateID × Call) :=
  [(s0, Call.open_initial 0), (s1, Call.open 0 s0 op_a), (s1, Call.reopen s1 op_c)]

/-- View of `s4` after `open_initial(5)` and `mark_as_dead_end`: a dead end
whose stored h is 5. -/
def dead_node : SearchNode :=
  ((fresh_node s4).open_initial 5).state.mark_as_dead_end.state

/-- Modelled from the spec: the `const` `operator[]` of `PerStateInformation`,
which is not among the sources, as `trace_path` calls it.  The table is indexed
by state identifiers (§3.1, §4.B); `NO_STATE` denotes "absent" and is the
identifier of no state, and §7 counts a null state id and a malformed parent
chain among the errors that assertions detect.  So the lookup serves the record
of every identifier other than `NO_STATE` and fails an assertion for
`NO_STATE`; `none` is that failure. -/
def SearchSpace.checked_lookup (space : SearchSpace) (id : StateID) :
    Option SearchNodeInfo :=
  if id = StateID.no_state then none else some (space.search_node_infos id)

/-- The loop of `SearchSpace::trace_path` with the table read through
`checked_lookup`; apart from the failing lookup it is `trace_path_loop`. -/
def SearchSpace.trace_path_loop_checked (space : SearchSpace) :
    Nat → StateID → List Operator → Option (Result (List Operator))
  | 0, _, _ => none
  | fuel + 1, current_state_id, path =>
    match space.checked_lookup current_state_id with
    | none => some (Result.assertion_failure path)
    | some info =>
      match info.creating_operator with
      | none =>
        if info.parent_state_id = StateID.no_state then some (Result.ok path)
        else some (Result.assertion_failure path)
      | some op =>
        SearchSpace.trace_path_loop_checked space fuel info.parent_state_id (path ++ [op])

/-- Method `SearchSpace::trace_path` with the table read through
`checked_lookup`. -/
def SearchSpace.trace_path_checked (space : SearchSpace) (fuel : Nat)
    (goal_state : State) (path : List Operator) : Option (Result (List Operator)) :=
  let current_state_id := goal_state.get_id
  if path = [] then
    match space.trace_path_loop_checked fuel current_state_id path with
    | some (Result.ok path) => some (Result.ok path.reverse)
    | other => other
  else some (Result.assertion_failure path)

/-- The parent named by a call, for the calls that take one. -/
def Call.parent_id : Call → Option StateID
  | Call.open _ parent _ => some parent
  | Call.open_steps _ parent _ => some parent
  | Call.reopen parent _ => some parent
  | Call.update_parent parent _ => some parent
  | _ => none

/-- The calls that never write the status: `increase_h`, `set_h_dirty` and
`clear_h_dirty`. -/
def Call.keeps_status : Call → Bool
  | Call.increase_h _ => true
  | Call.set_h_dirty => true
  | Call.clear_h_dirty => true
  | _ => false

/-- A record is a root (length 0, no parent, no creating operator) or a linked
record (positive length, a parent, a creating operator). -/
def SearchNodeInfo.root_or_linked (info : SearchNodeInfo) : Prop :=
  0 ≤ info.length ∧
  ((info.length = 0 ∧ info.parent_state_id = StateID.no_state ∧
      info.creating_operator = none) ∨
    (0 < info.length ∧ info.parent_state_id ≠ StateID.no_state ∧
      info.creating_operator ≠ none))

/-- Every multi-step open among the calls has at least one step. -/
def steps_nonempty (calls : List (StateID × Call)) : Prop :=
  ∀ xc ∈ calls, ∀ (h : Int) (parent : StateID) (steps : List Operator),
    xc.2 = Call.open_steps h parent steps → steps ≠ []

/-- A call other than `update_parent` and `reopen` whose parent, when it takes
one, has a status other than NEW in the table `space`, and whose steps, when it
takes some, are not empty. -/
def call_permitted (space : SearchSpace) : Call → Prop
  | Call.open _ parent _ => (space.search_node_infos parent).status ≠ NodeStatus.NEW
  | Call.open_steps _ parent steps =>
    (space.search_node_infos parent).status ≠ NodeStatus.NEW ∧ steps ≠ []
  | Call.reopen _ _ => False
  | Call.update_parent _ _ => False
  | _ => True

/-- Each call of the sequence is permitted in the table it is made on. -/
def calls_permitted (P : CostPolicy) : SearchSpace → List (StateID × Call) → Prop
  | _, [] => True
  | space, (x, c) :: rest =>
    call_permitted space c ∧ calls_permitted P (space.call P x c).state rest

/-- A single call on the untouched table: `set_h_dirty` on `s0`. -/
def dirty_calls : List (StateID × Call) := [(s0, Call.set_h_dirty)]

/-- The parent of every record with a creating operator has a status other
than NEW. -/
def ParentsNotNew (space : SearchSpace) : Prop :=
  ∀ (id : StateID) (op : Operator),
    (space.search_node_infos id).creating_operator = some op →
    (space.search_node_infos (space.search_node_infos id).parent_state_id).status
      ≠ NodeStatus.NEW

/-- The walk of `trace_path` from `id` ends at a root and visits no state
twice. -/
def HasChain (space : SearchSpace) (id : StateID) : Prop :=
  ∃ visited ops, Chain space id visited ops ∧ visited.Nodup

/-- Calls without `update_parent` and `reopen`, each parent opened before it is
used: the chain `s0 -a-> s1`, then `s3` opened from `s1` with `[x, y]`, closed
and marked as a dead end. -/
def forward_calls : List (StateID × Call) :=
  [(s0, Call.open_initial 10), (s1, Call.open 7 s0 op_a),
   (s3, Call.open_steps 0 s1 [op_x, op_y]), (s3, Call.close),
   (s3, Call.mark_as_dead_end)]

/-! ## Steps and the length of the parent -/

/-- What the `steps` of `x` are after a call that returned. -/
def call_steps_effect (space space1 : SearchSpace) (x : StateID) : Call → Prop
  | Call.open_steps _ _ steps => (space1.search_node_infos x).steps = some steps
  | Call.update_parent _ _ => (space1.search_node_infos x).steps = none
  | Call.reopen _ _ => (space1.search_node_infos x).steps = none
  | _ => (space1.search_node_infos x).steps = (space.search_node_infos x).steps

/-- Every record with status NEW has no steps. -/
def NewHasNoSteps (space : SearchSpace) : Prop :=
  ∀ id, (space.search_node_infos id).status = NodeStatus.NEW →
    (space.search_node_infos id).steps = none

/-- The last element of the steps of `id`, when it has steps, is its creating
operator. -/
def LastStepMatches (space : SearchSpace) (id : StateID) : Prop :=
  ∀ steps, (space.search_node_infos id).steps = some steps →
    steps.getLast? = (space.search_node_infos id).creating_operator

/-- The steps of `id`, when it has steps, are as many as its length exceeds the
length stored for its parent. -/
def StepsMatchLength (space : SearchSpace) (id : StateID) : Prop :=
  ∀ steps, (space.search_node_infos id).steps = some steps →
    (steps.length : Int)
      = (space.search_node_infos id).length
        - (space.search_node_infos (space.search_node_infos id).parent_state_id).length

/-- The states whose parent record has been left alone, after the call `c` on
`x` in the table `space`, given the set `E` of such states before the call.  A
multi-step open of `x` puts `x` in the set when the parent is not `x` itself.
A single-operator `open`, multi-step open, `update_parent` or `reopen` of `x`
removes the states whose parent is `x`.  The other calls change nothing. -/
def steps_kept_step (space : SearchSpace) (x : StateID) (c : Call)
    (E : StateID → Prop) (id : StateID) : Prop :=
  match c with
  | Call.open_steps _ parent _ =>
    (id = x → parent ≠ x) ∧
    (id ≠ x → E id ∧ (space.search_node_infos id).parent_state_id ≠ x)
  | Call.open _ _ _ =>
    id ≠ x → E id ∧ (space.search_node_infos id).parent_state_id ≠ x
  | Call.update_parent _ _ =>
    id ≠ x → E id ∧ (space.search_node_infos id).parent_state_id ≠ x
  | Call.reopen _ _ =>
    id ≠ x → E id ∧ (space.search_node_infos id).parent_state_id ≠ x
  | _ => E id

/-- The states whose parent record has been left alone after the calls, in
program order, from the table `space` where those states were `E`. -/
def steps_kept (P : CostPolicy) :
    SearchSpace → List (StateID × Call) → (StateID → Prop) → StateID → Prop
  | _, [], E => E
  | space, (x, c) :: rest, E =>
    steps_kept P (space.call P x c).state rest (steps_kept_step space x c E)

/-- After the calls, made from the untouched table, the parent of `id` has been
left alone since `id` was last opened or re-parented: that call did not name
`id` itself as the parent, and no later single-operator `open`, multi-step
open, `update_parent` or `reopen` was made on the parent. -/
def ParentLeftAlone (P : CostPolicy) (mode : OperatorCost)
    (calls : List (StateID × Call)) (id : StateID) : Prop :=
  steps_kept P (SearchSpace.create mode) calls (fun _ => True) id

/-- The chain `s0 -a-> s1 -b-> s2`, then `s3` opened from `s2` with `[x, y]`,
then `s2` reopened from `s0` with `c`. -/
def reparent_calls : List (StateID × Call) :=
  [(s0, Call.open_initial 0), (s1, Call.open 0 s0 op_a), (s2, Call.open 0 s1 op_b),
   (s3, Call.open_steps 0 s2 [op_x, op_y]), (s2, Call.reopen s0 op_c)]

/-! ## Theorems -/

/-- The loop that accumulates `plan_cost_adj` computes the sum of the adjusted
costs of the steps. -/
theorem foldl_adjusted_cost (f : Operator → Int) (steps : List Operator) (acc : Int) :
    steps.foldl (fun plan_cost_adj step => plan_cost_adj + f step) acc
      = acc + (steps.map f).sum := by
  induction steps generalizing acc with
  | nil => simp
  | cons step rest ih => simp [List.foldl_cons, ih, add_assoc]

/-- C1: on a record with status NEW the single-operator `open(h, parent, op)`
returns and leaves status OPEN, length = parent.length + 1,
g = parent.g + adjusted_cost(op, mode), real_g = parent.real_g + native_cost(op),
h = h, parent_state_id = parent.state_id and creating_operator = op. -/
theorem open_postcondition (P : CostPolicy) (node parent_node : SearchNode)
    (parent_op : Operator) (h : Int) (hnew : node.info.status = NodeStatus.NEW) :
    ∃ node', node.open P h parent_node parent_op = Result.ok node' ∧
      node'.info.status = NodeStatus.OPEN ∧
      node'.info.length = parent_node.info.length + 1 ∧
      node'.info.g
        = parent_node.info.g + P.get_adjusted_action_cost parent_op node.cost_type ∧
      node'.info.real_g = parent_node.info.real_g + parent_op.get_cost ∧
      node'.info.h = h ∧
      node'.info.parent_state_id = parent_node.state_id ∧
      node'.info.creating_operator = some parent_op := by
  simp [SearchNode.open, hnew, SearchNode.get_state_id]

/-- Witness of C1: `s1` opened from the root `s0` with operator `a`. -/
theorem open_postcondition_witness :
    (fresh_node s1).info.status = NodeStatus.NEW ∧
    ∃ node', (fresh_node s1).open scenario_policy 7 root_node op_a = Result.ok node' ∧
      node'.info.status = NodeStatus.OPEN ∧
      node'.info.length = root_node.info.length + 1 ∧
      node'.info.g = root_node.info.g
        + scenario_policy.get_adjusted_action_cost op_a (fresh_node s1).cost_type ∧
      node'.info.real_g = root_node.info.real_g + op_a.get_cost ∧
      node'.info.h = 7 ∧
      node'.info.parent_state_id = root_node.state_id ∧
      node'.info.creating_operator = some op_a :=
  ⟨by decide, open_postcondition scenario_policy (fresh_node s1) root_node op_a 7 (by decide)⟩

/-- C2: on a record with status NEW the multi-step `open(h, parent, steps)` with
non-empty `steps` returns and leaves status OPEN, length = parent.length + |steps|,
g = parent.g + the sum of the adjusted costs of the steps,
real_g = parent.real_g + plan_native_cost(steps), h = h,
parent_state_id = parent.state_id, creating_operator = the last step, and
steps = the given sequence. -/
theorem open_steps_postcondition (P : CostPolicy) (node parent_node : SearchNode)
    (steps : List Operator) (h : Int) (hnew : node.info.status = NodeStatus.NEW)
    (hne : steps ≠ []) :
    ∃ node', node.open_steps P h parent_node steps = Result.ok node' ∧
      node'.info.status = NodeStatus.OPEN ∧
      node'.info.length = parent_node.info.length + steps.length ∧
      node'.info.g = parent_node.info.g
        + (steps.map (fun step => P.get_adjusted_action_cost step node.cost_type)).sum ∧
      node'.info.real_g = parent_node.info.real_g + P.calculate_plan_cost steps ∧
      node'.info.h = h ∧
      node'.info.parent_state_id = parent_node.state_id ∧
      node'.info.creating_operator = some (steps.getLast hne) ∧
      node'.info.steps = some steps := by
  simp [SearchNode.open_steps, hnew, SearchNode.get_state_id, foldl_adjusted_cost,
    List.getLast?_eq_getLast _ hne]

/-- Witness of C2, scenario 4: `s3` opened from the root with the plan `[x, y]`
gets g = 4, real_g = 3, length = 2, creating_operator = y and steps = [x, y]. -/
theorem open_steps_postcondition_witness :
    ((fresh_node s3).info.status = NodeStatus.NEW ∧ [op_x, op_y] ≠ []) ∧
    (∃ node',
      (fresh_node s3).open_steps scenario_policy 0 root_node [op_x, op_y]
        = Result.ok node' ∧
      node'.info.status = NodeStatus.OPEN ∧
      node'.info.length = root_node.info.length + [op_x, op_y].length ∧
      node'.info.g = root_node.info.g
        + ([op_x, op_y].map (fun step =>
            scenario_policy.get_adjusted_action_cost step (fresh_node s3).cost_type)).sum ∧
      node'.info.real_g
        = root_node.info.real_g + scenario_policy.calculate_plan_cost [op_x, op_y] ∧
      node'.info.h = 0 ∧
      node'.info.parent_state_id = root_node.state_id ∧
      node'.info.creating_operator = some ([op_x, op_y].getLast (by decide)) ∧
      node'.info.steps = some [op_x, op_y]) ∧
    ((fresh_node s3).open_steps scenario_policy 0 root_node [op_x, op_y]).state.info
      = { status := NodeStatus.OPEN, g := 4, real_g := 3, h := 0, length := 2,
          h_is_dirty := false, parent_state_id := s0,
          creating_operator := some op_y, steps := some [op_x, op_y] } :=
  ⟨⟨by decide, by decide⟩,
   open_steps_postcondition scenario_policy (fresh_node s3) root_node [op_x, op_y] 0
     (by decide) (by decide),
   by decide⟩

/-- What `update_parent` does to a record whose status passes its assertion. -/
theorem update_parent_ok (P : CostPolicy) (node parent_node : SearchNode)
    (parent_op : Operator)
    (hst : node.info.status = NodeStatus.OPEN ∨ node.info.status = NodeStatus.CLOSED) :
    ∃ node', node.update_parent P parent_node parent_op = Result.ok node' ∧
      node'.info.length = parent_node.info.length + 1 ∧
      node'.info.g
        = parent_node.info.g + P.get_adjusted_action_cost parent_op node.cost_type ∧
      node'.info.real_g = parent_node.info.real_g + parent_op.get_cost ∧
      node'.info.parent_state_id = parent_node.state_id ∧
      node'.info.creating_operator = some parent_op ∧
      node'.info.steps = none ∧
      node'.info.status = node.info.status ∧
      node'.info.h = node.info.h ∧
      node'.info.h_is_dirty = node.info.h_is_dirty := by
  refine ⟨_, by simp only [SearchNode.update_parent, if_pos hst]; rfl, ?_⟩
  cases hs : node.info.steps <;> simp [hs, SearchNode.get_state_id]

/-- C3: on a record with status OPEN or CLOSED `update_parent(parent, op)`
returns and leaves length = parent.length + 1,
g = parent.g + adjusted_cost(op, mode), real_g = parent.real_g + native_cost(op),
parent_state_id = parent.state_id, creating_operator = op and steps absent,
whatever steps was before; status, h and h_is_dirty keep their values. -/
theorem update_parent_postcondition (P : CostPolicy) (node parent_node : SearchNode)
    (parent_op : Operator)
    (hst : node.info.status = NodeStatus.OPEN ∨ node.info.status = NodeStatus.CLOSED) :
    ∃ node', node.update_parent P parent_node parent_op = Result.ok node' ∧
      node'.info.length = parent_node.info.length + 1 ∧
      node'.info.g
        = parent_node.info.g + P.get_adjusted_action_cost parent_op node.cost_type ∧
      node'.info.real_g = parent_node.info.real_g + parent_op.get_cost ∧
      node'.info.parent_state_id = parent_node.state_id ∧
      node'.info.creating_operator = some parent_op ∧
      node'.info.steps = none ∧
      node'.info.status = node.info.status ∧
      node'.info.h = node.info.h ∧
      node'.info.h_is_dirty = node.info.h_is_dirty :=
  update_parent_ok P node parent_node parent_op hst

/-- Witness of C3: the node of scenario 4, which holds steps `[x, y]`, is
re-parented to the root with `c`; its steps are released. -/
theorem update_parent_postcondition_witness :
    (plan_node.info.status = NodeStatus.OPEN ∨ plan_node.info.status = NodeStatus.CLOSED) ∧
    plan_node.info.steps = some [op_x, op_y] ∧
    ∃ node', plan_node.update_parent scenario_policy root_node op_c = Result.ok node' ∧
      node'.info.length = root_node.info.length + 1 ∧
      node'.info.g = root_node.info.g
        + scenario_policy.get_adjusted_action_cost op_c plan_node.cost_type ∧
      node'.info.real_g = root_node.info.real_g + op_c.get_cost ∧
      node'.info.parent_state_id = root_node.state_id ∧
      node'.info.creating_operator = some op_c ∧
      node'.info.steps = none ∧
      node'.info.status = plan_node.info.status ∧
      node'.info.h = plan_node.info.h ∧
      node'.info.h_is_dirty = plan_node.info.h_is_dirty :=
  ⟨by decide, by decide,
   update_parent_postcondition scenario_policy plan_node root_node op_c (by decide)⟩

/-- C4: on a record with status OPEN or CLOSED `reopen(parent, op)` returns the
record that `update_parent(parent, op)` returns with status set to OPEN; so the
reopened record has g = parent.g + adjusted_cost(op, mode), length =
parent.length + 1, parent_state_id = parent.state_id, creating_operator = op,
status OPEN and steps absent. -/
theorem reopen_postcondition (P : CostPolicy) (node parent_node : SearchNode)
    (parent_op : Operator)
    (hst : node.info.status = NodeStatus.OPEN ∨ node.info.status = NodeStatus.CLOSED) :
    ∃ updated, node.update_parent P parent_node parent_op = Result.ok updated ∧
      node.reopen P parent_node parent_op
        = Result.ok { updated with
            info := { updated.info with status := NodeStatus.OPEN } } ∧
      (node.reopen P parent_node parent_op).state.info.status = NodeStatus.OPEN ∧
      (node.reopen P parent_node parent_op).state.info.g
        = parent_node.info.g + P.get_adjusted_action_cost parent_op node.cost_type ∧
      (node.reopen P parent_node parent_op).state.info.length
        = parent_node.info.length + 1 ∧
      (node.reopen P parent_node parent_op).state.info.parent_state_id
        = parent_node.state_id ∧
      (node.reopen P parent_node parent_op).state.info.creating_operator
        = some parent_op ∧
      (node.reopen P parent_node parent_op).state.info.steps = none := by
  obtain ⟨updated, hup, hl, hg, -, hp, hc, hs, -, -, -⟩ :=
    update_parent_ok P node parent_node parent_op hst
  have hre : node.reopen P parent_node parent_op
      = Result.ok { updated with
          info := { updated.info with status := NodeStatus.OPEN } } := by
    rw [SearchNode.reopen, hup]
  refine ⟨updated, hup, hre, ?_⟩
  rw [hre]
  simp [Result.state, hl, hg, hp, hc, hs]

/-- Witness of C4, scenario 3: `s2`, opened from `s1` with `b` and then closed,
is reopened from the root `s0` with `c` of cost 1; it gets status OPEN, g = 1,
length = 1, parent `s0`, creating operator `c` and no steps. -/
theorem reopen_postcondition_witness :
    (closed_node2.info.status = NodeStatus.OPEN ∨
      closed_node2.info.status = NodeStatus.CLOSED) ∧
    (∃ updated,
      closed_node2.update_parent scenario_policy root_node op_c = Result.ok updated ∧
      closed_node2.reopen scenario_policy root_node op_c
        = Result.ok { updated with
            info := { updated.info with status := NodeStatus.OPEN } } ∧
      (closed_node2.reopen scenario_policy root_node op_c).state.info.status
        = NodeStatus.OPEN ∧
      (closed_node2.reopen scenario_policy root_node op_c).state.info.g
        = root_node.info.g
          + scenario_policy.get_adjusted_action_cost op_c closed_node2.cost_type ∧
      (closed_node2.reopen scenario_policy root_node op_c).state.info.length
        = root_node.info.length + 1 ∧
      (closed_node2.reopen scenario_policy root_node op_c).state.info.parent_state_id
        = root_node.state_id ∧
      (closed_node2.reopen scenario_policy root_node op_c).state.info.creating_operator
        = some op_c ∧
      (closed_node2.reopen scenario_policy root_node op_c).state.info.steps = none) ∧
    closed_node2.info.g = 5 ∧
    (closed_node2.reopen scenario_policy root_node op_c).state.info
      = { status := NodeStatus.OPEN, g := 1, real_g := 1, h := 0, length := 1,
          h_is_dirty := false, parent_state_id := s0,
          creating_operator := some op_c, steps := none } :=
  ⟨by decide,
   reopen_postcondition scenario_policy closed_node2 root_node op_c (by decide),
   by decide, by decide⟩

/-- C7: on a record with status NEW `open_initial(h)` returns and leaves status
OPEN, g = 0, real_g = 0, h = h, length = 0, parent_state_id = NO_STATE and no
creating operator; steps and h_is_dirty keep their values. -/
theorem open_initial_postcondition (node : SearchNode) (h : Int)
    (hnew : node.info.status = NodeStatus.NEW) :
    ∃ node', node.open_initial h = Result.ok node' ∧
      node'.info.status = NodeStatus.OPEN ∧
      node'.info.g = 0 ∧
      node'.info.real_g = 0 ∧
      node'.info.h = h ∧
      node'.info.length = 0 ∧
      node'.info.parent_state_id = StateID.no_state ∧
      node'.info.creating_operator = none ∧
      node'.info.steps = node.info.steps ∧
      node'.info.h_is_dirty = node.info.h_is_dirty := by
  simp [SearchNode.open_initial, hnew]

/-- Witness of C7, scenario 1: `open_initial(5)` on the untouched `s0`. -/
theorem open_initial_postcondition_witness :
    (fresh_node s0).info.status = NodeStatus.NEW ∧
    (∃ node', (fresh_node s0).open_initial 5 = Result.ok node' ∧
      node'.info.status = NodeStatus.OPEN ∧
      node'.info.g = 0 ∧
      node'.info.real_g = 0 ∧
      node'.info.h = 5 ∧
      node'.info.length = 0 ∧
      node'.info.parent_state_id = StateID.no_state ∧
      node'.info.creating_operator = none ∧
      node'.info.steps = (fresh_node s0).info.steps ∧
      node'.info.h_is_dirty = (fresh_node s0).info.h_is_dirty) ∧
    (fresh_node s0).info.steps = none :=
  ⟨by decide, open_initial_postcondition (fresh_node s0) 5 (by decide), by decide⟩

/-- What the multi-step open on `[op]` and the single-operator open with `op`
leave on a record with status NEW, whatever the cost policy: the two records
agree on every field other than `steps` and `real_g`, and the two `real_g`
agree exactly when the plan cost of `[op]` is the native cost of `op`. -/
theorem open_single_step_refines (P : CostPolicy) (node parent_node : SearchNode)
    (parent_op : Operator) (h : Int) (hnew : node.info.status = NodeStatus.NEW) :
    ∃ multi single,
      node.open_steps P h parent_node [parent_op] = Result.ok multi ∧
      node.open P h parent_node parent_op = Result.ok single ∧
      multi.state_id = single.state_id ∧
      multi.info = { single.info with
        steps := some [parent_op],
        real_g := parent_node.info.real_g + P.calculate_plan_cost [parent_op] } ∧
      (multi.info.real_g = single.info.real_g
        ↔ P.calculate_plan_cost [parent_op] = parent_op.get_cost) := by
  simp [SearchNode.open_steps, SearchNode.open, hnew]

/-- C8: let the plan cost of a one-operator sequence be the native cost of the
operator.  On a record with status NEW the multi-step `open(h, parent, [op])`
and the single-operator `open(h, parent, op)` both return and leave identical
g, real_g, length, parent_state_id and creating_operator, and identical status
and h; the two records differ only in that the multi-step form has
steps = [op]. -/
theorem open_single_step_agrees (P : CostPolicy) (node parent_node : SearchNode)
    (parent_op : Operator) (h : Int) (hplan : P.plan_cost_of_one)
    (hnew : node.info.status = NodeStatus.NEW) :
    ∃ multi single,
      node.open_steps P h parent_node [parent_op] = Result.ok multi ∧
      node.open P h parent_node parent_op = Result.ok single ∧
      multi.info.g = single.info.g ∧
      multi.info.real_g = single.info.real_g ∧
      multi.info.length = single.info.length ∧
      multi.info.parent_state_id = single.info.parent_state_id ∧
      multi.info.creating_operator = single.info.creating_operator ∧
      multi.info.status = single.info.status ∧
      multi.info.h = single.info.h ∧
      multi.info.steps = some [parent_op] ∧
      multi = { single with info := { single.info with steps := some [parent_op] } } := by
  have hone := hplan parent_op
  simp [SearchNode.open_steps, SearchNode.open, hnew, hone]

/-- The policy of the scenarios gives a one-operator plan the native cost of
its operator. -/
theorem scenario_policy_plan_cost_of_one : scenario_policy.plan_cost_of_one := by
  intro op
  simp [scenario_policy]

/-- Witness of C8: `s1` opened from the root with `[a]` and with `a` under the
policy of the scenarios; the two records differ in `steps` only. -/
theorem open_single_step_agrees_witness :
    (scenario_policy.plan_cost_of_one ∧ (fresh_node s1).info.status = NodeStatus.NEW) ∧
    (∃ multi single,
      (fresh_node s1).open_steps scenario_policy 7 root_node [op_a] = Result.ok multi ∧
      (fresh_node s1).open scenario_policy 7 root_node op_a = Result.ok single ∧
      multi.info.g = single.info.g ∧
      multi.info.real_g = single.info.real_g ∧
      multi.info.length = single.info.length ∧
      multi.info.parent_state_id = single.info.parent_state_id ∧
      multi.info.creating_operator = single.info.creating_operator ∧
      multi.info.status = single.info.status ∧
      multi.info.h = single.info.h ∧
      multi.info.steps = some [op_a] ∧
      multi = { single with info := { single.info with steps := some [op_a] } }) ∧
    ((fresh_node s1).open_steps scenario_policy 7 root_node [op_a]).state.info
      = { status := NodeStatus.OPEN, g := 2, real_g := 2, h := 7, length := 1,
          h_is_dirty := false, parent_state_id := s0,
          creating_operator := some op_a, steps := some [op_a] } ∧
    ((fresh_node s1).open scenario_policy 7 root_node op_a).state.info
      = { status := NodeStatus.OPEN, g := 2, real_g := 2, h := 7, length := 1,
          h_is_dirty := false, parent_state_id := s0,
          creating_operator := some op_a, steps := none } :=
  ⟨⟨scenario_policy_plan_cost_of_one, by decide⟩,
   open_single_step_agrees scenario_policy (fresh_node s1) root_node op_a 7
     scenario_policy_plan_cost_of_one (by decide),
   by decide, by decide⟩

/-- One `increase_h` call leaves the larger of the stored h and its argument. -/
theorem increase_h_state_h (node : SearchNode) (h : Int) :
    (node.increase_h h).state.info.h = max node.info.h h := by
  unfold SearchNode.increase_h
  by_cases hge : h ≥ node.info.h
  · simp [hge, Result.state, max_eq_right (ge_iff_le.mp hge)]
  · have hlt : h < node.info.h := lt_of_not_ge hge
    simp [hge, Result.state, max_eq_left (le_of_lt hlt)]

/-- C9: after any sequence of `increase_h` calls on a record the stored h is
the maximum of the h the record had before and of all arguments supplied. -/
theorem increase_h_calls_max (node : SearchNode) (hs : List Int) :
    (node.increase_h_calls hs).info.h = hs.foldl max node.info.h := by
  unfold SearchNode.increase_h_calls
  induction hs generalizing node with
  | nil => rfl
  | cons h rest ih =>
    rw [List.foldl_cons, List.foldl_cons, ih, increase_h_state_h]

/-- Scenario 6: from h = 3, `increase_h(5)` returns, `increase_h(4)` fails its
assertion, and the stored h is 5. -/
theorem increase_h_scenario :
    ({ root_node with info := { root_node.info with h := 3 } }.increase_h_calls [5, 4]).info.h
      = 5 ∧
    ({ root_node with info := { root_node.info with h := 3 } }.increase_h 5).succeeded
      = true ∧
    ((({ root_node with info := { root_node.info with h := 3 } }.increase_h 5).state).increase_h
      4).succeeded = false := by
  decide

/-- C10: `increase_h(h')` fails its assertion if and only if h' is smaller than
the stored h; a failed call leaves the record as it was, and a call that
returns leaves h = h' and every other field, h_is_dirty and status included,
as it was. -/
theorem increase_h_contract (node : SearchNode) (h' : Int) :
    ((node.increase_h h').succeeded = false ↔ h' < node.info.h) ∧
    node.increase_h h'
      = if h' < node.info.h then Result.assertion_failure node
        else Result.ok { node with info := { node.info with h := h' } } := by
  unfold SearchNode.increase_h
  by_cases hlt : h' < node.info.h
  · have hge : ¬ h' ≥ node.info.h := not_le.mpr hlt
    simp [hlt, hge, Result.succeeded]
  · have hge : h' ≥ node.info.h := not_lt.mp hlt
    simp [hlt, hge, Result.succeeded]

/-! ### Parent chains and `trace_path` -/

/-- Along a chain the loop of `trace_path` returns, having appended the creating
operators in goal-to-root order, as soon as the fuel covers the visited states. -/
theorem chain_trace_path_loop {space : SearchSpace} {id : StateID}
    {visited : List StateID} {ops : List Operator} (hc : Chain space id visited ops) :
    ∀ (acc : List Operator) (fuel : Nat), visited.length ≤ fuel →
      space.trace_path_loop fuel id acc = some (Result.ok (acc ++ ops.reverse)) := by
  induction hc with
  | root hop hpar =>
    intro acc fuel hfuel
    cases fuel with
    | zero => simp at hfuel
    | succ k => simp [SearchSpace.trace_path_loop, hop, hpar]
  | link hop hrest ih =>
    intro acc fuel hfuel
    cases fuel with
    | zero => simp at hfuel
    | succ k =>
      have hk : _ ≤ k := Nat.le_of_succ_le_succ hfuel
      simp only [SearchSpace.trace_path_loop, hop]
      rw [ih _ k hk]
      simp

/-- Along a chain `trace_path`, called with an empty path, returns the creating
operators in root-to-goal order. -/
theorem chain_trace_path {space : SearchSpace} {id : StateID}
    {visited : List StateID} {ops : List Operator} (hc : Chain space id visited ops)
    (fuel : Nat) (hfuel : visited.length ≤ fuel) :
    space.trace_path fuel { id := id } [] = some (Result.ok ops) := by
  simp [SearchSpace.trace_path, State.get_id, chain_trace_path_loop hc [] fuel hfuel]

/-- A chain only depends on the creating operators and parents of the records
it visits. -/
theorem chain_frame {space space' : SearchSpace} {id : StateID}
    {visited : List StateID} {ops : List Operator} (hc : Chain space id visited ops)
    (hsame : ∀ x ∈ visited,
      (space'.search_node_infos x).creating_operator
          = (space.search_node_infos x).creating_operator ∧
      (space'.search_node_infos x).parent_state_id
          = (space.search_node_infos x).parent_state_id) :
    Chain space' id visited ops := by
  induction hc with
  | root hop hpar =>
    obtain ⟨h1, h2⟩ := hsame _ (List.mem_singleton_self _)
    exact Chain.root (h1.trans hop) (h2.trans hpar)
  | @link id op visited ops hop hrest ih =>
    obtain ⟨h1, h2⟩ := hsame id (List.mem_cons_self _ _)
    have hrest' := ih (fun x hx => hsame x (List.mem_cons_of_mem _ hx))
    rw [← h2] at hrest'
    exact Chain.link (h1.trans hop) hrest'

/-- A chain visits one state more than it has operators. -/
theorem chain_visited_length {space : SearchSpace} {id : StateID}
    {visited : List StateID} {ops : List Operator} (hc : Chain space id visited ops) :
    visited.length = ops.length + 1 := by
  induction hc with
  | root hop hpar => rfl
  | link hop hrest ih => simp [ih]

/-! ### Calls on the table -/

/-- The view that `get_node` returns for a state other than `no_state`. -/
theorem get_node_of_ne (space : SearchSpace) {id : StateID}
    (hid : id ≠ StateID.no_state) :
    space.get_node id
      = some { state_id := id, info := space.search_node_infos id,
               cost_type := space.cost_type } := by
  simp [SearchSpace.get_node, SearchNode.create, hid]

/-- Reading the table after a write. -/
theorem set_apply (t : PerStateInformation) (id i : StateID) (info : SearchNodeInfo) :
    t.set id info i = if i = id then info else t i := rfl

/-- Opening a chain of untouched, pairwise distinct states below the end `p` of
a chain extends that chain by the operators used. -/
theorem chain_calls_build (P : CostPolicy) :
    ∀ (links : List (StateID × Int × Operator)) (space : SearchSpace) (p : StateID)
      (visited : List StateID) (ops : List Operator),
      Chain space p visited ops → p ≠ StateID.no_state →
      (links.map (fun l => l.1)).Nodup →
      (∀ l ∈ links, l.1 ≠ StateID.no_state ∧ l.1 ∉ visited ∧
        (space.search_node_infos l.1).status = NodeStatus.NEW) →
      ∃ space' visited', space.run P (chain_calls p links) = Result.ok space' ∧
        Chain space' (chain_end p links) visited' (ops ++ links.map (fun l => l.2.2)) := by
  intro links
  induction links with
  | nil =>
    intro space p visited ops hc _ _ _
    exact ⟨space, visited, rfl, by simpa [chain_end] using hc⟩
  | cons l rest ih =>
    intro space p visited ops hc hp hnodup hall
    obtain ⟨s, h, op⟩ := l
    obtain ⟨hs, hsvis, hsnew⟩ := hall (s, h, op) (List.mem_cons_self _ _)
    simp only [List.map_cons, List.nodup_cons, List.mem_map, not_exists, not_and] at hnodup
    obtain ⟨hsrest, hnodup'⟩ := hnodup
    -- the table after `get_node(s).open(h, get_node(p), op)`
    obtain ⟨space1, hcall, hs1op, hs1par, hother⟩ :
        ∃ space1, space.call P s (Call.open h p op) = Result.ok space1 ∧
          (space1.search_node_infos s).creating_operator = some op ∧
          (space1.search_node_infos s).parent_state_id = p ∧
          ∀ i, i ≠ s → space1.search_node_infos i = space.search_node_infos i := by
      refine ⟨_, by
        simp only [SearchSpace.call, get_node_of_ne _ hs, get_node_of_ne _ hp,
          SearchNode.open, if_pos hsnew, Result.map]; rfl, ?_, ?_, ?_⟩
      · simp [SearchSpace.store, set_apply, SearchNode.get_state_id]
      · simp [SearchSpace.store, set_apply, SearchNode.get_state_id]
      · intro i hi
        simp [SearchSpace.store, set_apply, hi]
    have hc1 : Chain space1 p visited ops :=
      chain_frame hc (fun x hx => by
        have hxs : x ≠ s := fun hxs => hsvis (hxs ▸ hx)
        rw [hother x hxs]; exact ⟨rfl, rfl⟩)
    have hc1s : Chain space1 s (s :: visited) (ops ++ [op]) :=
      Chain.link hs1op (by rw [hs1par]; exact hc1)
    obtain ⟨space', visited', hrun, hchain⟩ :=
      ih space1 s (s :: visited) (ops ++ [op]) hc1s hs hnodup' (fun l hl => by
        obtain ⟨hl1, hl2, hl3⟩ := hall l (List.mem_cons_of_mem _ hl)
        have hls : l.1 ≠ s := fun hls => hsrest l hl hls
        refine ⟨hl1, ?_, ?_⟩
        · simp [hls, hl2]
        · rw [hother _ hls]; exact hl3)
    refine ⟨space', visited', ?_, ?_⟩
    · simp only [chain_calls, SearchSpace.run, hcall]
      exact hrun
    · simpa [chain_end, List.append_assoc] using hchain

/-- C6: let `s0, s1, ..., sn` be pairwise distinct states, untouched so far.
After `open_initial` on `s0` and, for each i, the single-operator `open` on
`s(i+1)` from parent `s(i)` with operator `o(i+1)`, the call `trace_path(sn)`
with an empty output path returns `[o1, ..., on]`, in root-to-goal order, for
every fuel above n; for n = 0 this is the empty sequence. -/
theorem trace_path_of_opened_chain (P : CostPolicy) (space : SearchSpace)
    (s0 : StateID) (h0 : Int) (links : List (StateID × Int × Operator))
    (hdistinct : (s0 :: links.map (fun l => l.1)).Nodup)
    (hreal : ∀ s ∈ s0 :: links.map (fun l => l.1), s ≠ StateID.no_state)
    (hnew : ∀ s ∈ s0 :: links.map (fun l => l.1),
      (space.search_node_infos s).status = NodeStatus.NEW) :
    ∃ space',
      space.run P ((s0, Call.open_initial h0) :: chain_calls s0 links) = Result.ok space' ∧
      ∀ fuel, links.length < fuel →
        space'.trace_path fuel { id := chain_end s0 links } []
          = some (Result.ok (links.map (fun l => l.2.2))) := by
  have hs0 : s0 ≠ StateID.no_state := hreal s0 (List.mem_cons_self _ _)
  have hs0new := hnew s0 (List.mem_cons_self _ _)
  obtain ⟨hs0rest, hnodup⟩ := List.nodup_cons.mp hdistinct
  -- the table after `get_node(s0).open_initial(h0)`
  obtain ⟨space0, hcall, hop, hpar, hother⟩ :
      ∃ space0, space.call P s0 (Call.open_initial h0) = Result.ok space0 ∧
        (space0.search_node_infos s0).creating_operator = none ∧
        (space0.search_node_infos s0).parent_state_id = StateID.no_state ∧
        ∀ i, i ≠ s0 → space0.search_node_infos i = space.search_node_infos i := by
    refine ⟨_, by
      simp only [SearchSpace.call, get_node_of_ne _ hs0, SearchNode.open_initial,
        if_pos hs0new, Result.map]; rfl, ?_, ?_, ?_⟩
    · simp [SearchSpace.store, set_apply]
    · simp [SearchSpace.store, set_apply]
    · intro i hi
      simp [SearchSpace.store, set_apply, hi]
  obtain ⟨space', visited', hrun, hchain⟩ :=
    chain_calls_build P links space0 s0 [s0] [] (Chain.root hop hpar) hs0 hnodup
      (fun l hl => by
        have hmem : l.1 ∈ links.map (fun l => l.1) := List.mem_map_of_mem _ hl
        have hls : l.1 ≠ s0 := fun hls => hs0rest (hls ▸ hmem)
        refine ⟨hreal _ (List.mem_cons_of_mem _ hmem), by simp [hls], ?_⟩
        rw [hother _ hls]
        exact hnew _ (List.mem_cons_of_mem _ hmem))
  refine ⟨space', ?_, ?_⟩
  · simp only [SearchSpace.run, hcall]
    exact hrun
  · intro fuel hfuel
    have hlen := chain_visited_length hchain
    simp only [List.nil_append, List.length_map] at hlen
    have := chain_trace_path hchain fuel (by omega)
    simpa using this

/-- Witness of C6, scenario 2: after `open_initial(10)` on `s0`, `open(7, s0, a)`
on `s1` and `open(0, s1, b)` on `s2`, `trace_path(s2)` returns `[a, b]`. -/
theorem trace_path_of_opened_chain_witness :
    ((s0 :: [(s1, (7 : Int), op_a), (s2, 0, op_b)].map (fun l => l.1)).Nodup ∧
     (∀ s ∈ s0 :: [(s1, (7 : Int), op_a), (s2, 0, op_b)].map (fun l => l.1),
        s ≠ StateID.no_state) ∧
     (∀ s ∈ s0 :: [(s1, (7 : Int), op_a), (s2, 0, op_b)].map (fun l => l.1),
        ((SearchSpace.create scenario_mode).search_node_infos s).status = NodeStatus.NEW)) ∧
    (∃ space',
      (SearchSpace.create scenario_mode).run scenario_policy
          ((s0, Call.open_initial 10) :: chain_calls s0 [(s1, 7, op_a), (s2, 0, op_b)])
        = Result.ok space' ∧
      ∀ fuel, [(s1, (7 : Int), op_a), (s2, 0, op_b)].length < fuel →
        space'.trace_path fuel { id := chain_end s0 [(s1, 7, op_a), (s2, 0, op_b)] } []
          = some (Result.ok ([(s1, (7 : Int), op_a), (s2, 0, op_b)].map (fun l => l.2.2)))) ∧
    ((SearchSpace.create scenario_mode).run scenario_policy
        [(s0, Call.open_initial 10), (s1, Call.open 7 s0 op_a),
         (s2, Call.open 0 s1 op_b)]).state.trace_path 3 { id := s2 } []
      = some (Result.ok [op_a, op_b]) :=
  ⟨⟨by decide, by decide, by decide⟩,
   trace_path_of_opened_chain scenario_policy (SearchSpace.create scenario_mode) s0 10
     [(s1, 7, op_a), (s2, 0, op_b)] (by decide) (by decide) (by decide),
   by decide⟩

/-! ### What a call that returns does to the table -/

/-- What a returning `update_parent` leaves in the view. -/
theorem update_parent_eq_ok {P : CostPolicy} {node parent_node node' : SearchNode}
    {parent_op : Operator}
    (hcall : node.update_parent P parent_node parent_op = Result.ok node') :
    node'.state_id = node.state_id ∧
    node'.info.creating_operator = some parent_op ∧
    node'.info.parent_state_id = parent_node.state_id ∧
    node'.info.length = parent_node.info.length + 1 ∧
    node'.info.g
      = parent_node.info.g + P.get_adjusted_action_cost parent_op node.cost_type ∧
    node'.info.status = node.info.status ∧
    (node.info.status = NodeStatus.OPEN ∨ node.info.status = NodeStatus.CLOSED) := by
  by_cases hst : node.info.status = NodeStatus.OPEN ∨ node.info.status = NodeStatus.CLOSED
  · simp only [SearchNode.update_parent, if_pos hst, Result.ok.injEq] at hcall
    subst hcall
    cases hs : node.info.steps <;> simp [hs, hst, SearchNode.get_state_id]
  · simp [SearchNode.update_parent, hst] at hcall

/-- What a returning `reopen` leaves in the view. -/
theorem reopen_eq_ok {P : CostPolicy} {node parent_node node' : SearchNode}
    {parent_op : Operator}
    (hcall : node.reopen P parent_node parent_op = Result.ok node') :
    node'.state_id = node.state_id ∧
    node'.info.creating_operator = some parent_op ∧
    node'.info.parent_state_id = parent_node.state_id ∧
    node'.info.length = parent_node.info.length + 1 ∧
    node'.info.g
      = parent_node.info.g + P.get_adjusted_action_cost parent_op node.cost_type ∧
    node'.info.status = NodeStatus.OPEN := by
  unfold SearchNode.reopen at hcall
  cases hup : node.update_parent P parent_node parent_op with
  | ok updated =>
    obtain ⟨h1, h2, h3, h4, h5, -, -⟩ := update_parent_eq_ok hup
    simp only [hup, Result.ok.injEq] at hcall
    subst hcall
    simp [h1, h2, h3, h4, h5]
  | assertion_failure s => simp [hup] at hcall

/-- A call that returns was made on a state other than `no_state`; it leaves the
mode and the records of all other states as they were. -/
theorem call_ok_frame {P : CostPolicy} {space space1 : SearchSpace} {x : StateID}
    {c : Call} (hcall : space.call P x c = Result.ok space1) :
    x ≠ StateID.no_state ∧ space1.cost_type = space.cost_type ∧
    (∀ i, i ≠ x → space1.search_node_infos i = space.search_node_infos i) ∧
    call_effect P space space1 x c := by
  have hx : x ≠ StateID.no_state := by
    intro hx
    simp [SearchSpace.call, SearchSpace.get_node, SearchNode.create, hx] at hcall
  refine ⟨hx, ?_⟩
  rw [SearchSpace.call, get_node_of_ne _ hx] at hcall
  rcases c with h | ⟨h, p, op⟩ | ⟨h, p, steps⟩ | ⟨p, op⟩ | ⟨p, op⟩ | h | _ | _ | _ | _
  · simp only [SearchNode.open_initial] at hcall
    split at hcall <;> simp [Result.map] at hcall
    subst hcall
    simp_all [SearchSpace.store, set_apply, call_effect]
  · by_cases hp : p = StateID.no_state
    · simp [SearchSpace.get_node, SearchNode.create, hp] at hcall
    · simp only [get_node_of_ne _ hp, SearchNode.open] at hcall
      split at hcall <;> simp [Result.map] at hcall
      subst hcall
      simp_all [SearchSpace.store, set_apply, call_effect, SearchNode.get_state_id]
  · by_cases hp : p = StateID.no_state
    · simp [SearchSpace.get_node, SearchNode.create, hp] at hcall
    · simp only [get_node_of_ne _ hp, SearchNode.open_steps] at hcall
      split at hcall <;> simp [Result.map] at hcall
      subst hcall
      simp_all [SearchSpace.store, set_apply, call_effect, SearchNode.get_state_id,
        foldl_adjusted_cost]
  · by_cases hp : p = StateID.no_state
    · simp [SearchSpace.get_node, SearchNode.create, hp] at hcall
    · simp only [get_node_of_ne _ hp] at hcall
      cases hr : SearchNode.reopen P
          { state_id := x, info := space.search_node_infos x, cost_type := space.cost_type }
          { state_id := p, info := space.search_node_infos p, cost_type := space.cost_type }
          op with
      | ok node' =>
        obtain ⟨h1, h2, h3, h4, h5, h6⟩ := reopen_eq_ok hr
        simp only [hr, Result.map, Result.ok.injEq] at hcall
        subst hcall
        simp_all [SearchSpace.store, set_apply, call_effect]
      | assertion_failure s => simp [hr, Result.map] at hcall
  · by_cases hp : p = StateID.no_state
    · simp [SearchSpace.get_node, SearchNode.create, hp] at hcall
    · simp only [get_node_of_ne _ hp] at hcall
      cases hr : SearchNode.update_parent P
          { state_id := x, info := space.search_node_infos x, cost_type := space.cost_type }
          { state_id := p, info := space.search_node_infos p, cost_type := space.cost_type }
          op with
      | ok node' =>
        obtain ⟨h1, h2, h3, h4, h5, h6, h7⟩ := update_parent_eq_ok hr
        simp only [hr, Result.map, Result.ok.injEq] at hcall
        subst hcall
        have hnew : (space.search_node_infos x).status ≠ NodeStatus.NEW := by
          rcases h7 with h7 | h7 <;> simp at h7 <;> simp [h7]
        simp_all [SearchSpace.store, set_apply, call_effect]
      | assertion_failure s => simp [hr, Result.map] at hcall
  · simp only [SearchNode.increase_h] at hcall
    split at hcall <;> simp [Result.map] at hcall
    subst hcall
    simp_all [SearchSpace.store, set_apply, call_effect]
  · simp [SearchNode.set_h_dirty, Result.map] at hcall
    subst hcall
    simp_all [SearchSpace.store, set_apply, call_effect]
  · simp [SearchNode.clear_h_dirty, Result.map] at hcall
    subst hcall
    simp_all [SearchSpace.store, set_apply, call_effect]
  · simp only [SearchNode.close] at hcall
    split at hcall <;> simp [Result.map] at hcall
    subst hcall
    simp_all [SearchSpace.store, set_apply, call_effect]
  · simp [SearchNode.mark_as_dead_end, Result.map] at hcall
    subst hcall
    simp_all [SearchSpace.store, set_apply, call_effect]

/-! ### Established chains -/

/-- Every state that a chain visits lies on the chain. -/
theorem chain_visited_onChain {space : SearchSpace} {id : StateID}
    {visited : List StateID} {ops : List Operator} (hc : Chain space id visited ops) :
    ∀ x ∈ visited, OnChain space x id := by
  induction hc with
  | root hop hpar =>
    intro x hx
    rw [List.mem_singleton.mp hx]
    exact OnChain.here
  | link hop hrest ih =>
    intro x hx
    rcases List.mem_cons.mp hx with hx | hx
    · rw [hx]
      exact OnChain.here
    · exact OnChain.above hop (ih x hx)

/-- A matching chain of `id` survives a change of the table that keeps the mode,
the creating operator and parent of every state on the chain, and the length
and g of `id`. -/
theorem chainMatches_frame {P : CostPolicy} {space space1 : SearchSpace} {id : StateID}
    (hm : ChainMatches P space id) (hct : space1.cost_type = space.cost_type)
    (hsame : ∀ i, OnChain space i id →
      (space1.search_node_infos i).creating_operator
          = (space.search_node_infos i).creating_operator ∧
      (space1.search_node_infos i).parent_state_id
          = (space.search_node_infos i).parent_state_id)
    (hlen : (space1.search_node_infos id).length = (space.search_node_infos id).length)
    (hg : (space1.search_node_infos id).g = (space.search_node_infos id).g) :
    ChainMatches P space1 id := by
  obtain ⟨visited, ops, hc, hl, hsum⟩ := hm
  refine ⟨visited, ops, ?_, ?_, ?_⟩
  · exact chain_frame hc (fun i hi => hsame i (chain_visited_onChain hc i hi))
  · rw [hlen]; exact hl
  · rw [hg, hct]; exact hsum

/-- A call that links `x` to `parent` with operator `op`, taking length and g
from the record of `parent`, gives a matching chain to every state that
`relinked` keeps. -/
theorem relinked_matches {P : CostPolicy} {space space1 : SearchSpace}
    {x parent : StateID} {op : Operator} {E : StateID → Prop}
    (hE : ∀ id, E id → ChainMatches P space id)
    (hct : space1.cost_type = space.cost_type)
    (hother : ∀ i, i ≠ x → space1.search_node_infos i = space.search_node_infos i)
    (hop : (space1.search_node_infos x).creating_operator = some op)
    (hpar : (space1.search_node_infos x).parent_state_id = parent)
    (hlen : (space1.search_node_infos x).length
      = (space.search_node_infos parent).length + 1)
    (hg : (space1.search_node_infos x).g
      = (space.search_node_infos parent).g
        + P.get_adjusted_action_cost op space.cost_type)
    (id : StateID) (hid : relinked space x parent E id) :
    ChainMatches P space1 id := by
  by_cases hidx : id = x
  · obtain ⟨hEp, hnot⟩ := hid.1 hidx
    obtain ⟨visited, ops, hc, hl, hsum⟩ := hE parent hEp
    have hc1 : Chain space1 parent visited ops :=
      chain_frame hc (fun i hi => by
        have hix : i ≠ x := fun hix => hnot (hix ▸ chain_visited_onChain hc i hi)
        rw [hother i hix]
        exact ⟨rfl, rfl⟩)
    subst hidx
    refine ⟨id :: visited, ops ++ [op], Chain.link hop (by rw [hpar]; exact hc1), ?_, ?_⟩
    · rw [hlen, ← hl]
      simp
    · rw [hg, ← hsum, hct]
      simp
  · obtain ⟨hEid, hnot⟩ := hid.2 hidx
    refine chainMatches_frame (hE id hEid) hct (fun i hi => ?_) ?_ ?_
    · have hix : i ≠ x := fun hix => hnot (hix ▸ hi)
      rw [hother i hix]
      exact ⟨rfl, rfl⟩
    · rw [hother id hidx]
    · rw [hother id hidx]

/-- A call that leaves parent, creating operator, length and g of `x` as they
were keeps every matching chain. -/
theorem kept_matches {P : CostPolicy} {space space1 : SearchSpace}
    {x : StateID} {E : StateID → Prop}
    (hE : ∀ id, E id → ChainMatches P space id)
    (hct : space1.cost_type = space.cost_type)
    (hother : ∀ i, i ≠ x → space1.search_node_infos i = space.search_node_infos i)
    (hop : (space1.search_node_infos x).creating_operator
      = (space.search_node_infos x).creating_operator)
    (hpar : (space1.search_node_infos x).parent_state_id
      = (space.search_node_infos x).parent_state_id)
    (hlen : (space1.search_node_infos x).length = (space.search_node_infos x).length)
    (hg : (space1.search_node_infos x).g = (space.search_node_infos x).g)
    (id : StateID) (hid : E id) :
    ChainMatches P space1 id := by
  have hfields : ∀ i,
      (space1.search_node_infos i).creating_operator
          = (space.search_node_infos i).creating_operator ∧
      (space1.search_node_infos i).parent_state_id
          = (space.search_node_infos i).parent_state_id ∧
      (space1.search_node_infos i).length = (space.search_node_infos i).length ∧
      (space1.search_node_infos i).g = (space.search_node_infos i).g := by
    intro i
    by_cases hix : i = x
    · rw [hix]
      exact ⟨hop, hpar, hlen, hg⟩
    · rw [hother i hix]
      exact ⟨rfl, rfl, rfl, rfl⟩
  exact chainMatches_frame (hE id hid) hct (fun i _ => ⟨(hfields i).1, (hfields i).2.1⟩)
    (hfields id).2.2.1 (hfields id).2.2.2

/-- One returning call: the states that `established_step` keeps have a matching
chain afterwards, and records with status NEW still hold the defaults. -/
theorem established_step_matches {P : CostPolicy} {space space1 : SearchSpace}
    {x : StateID} {c : Call} {E : StateID → Prop}
    (hcall : space.call P x c = Result.ok space1)
    (hE : ∀ id, E id → ChainMatches P space id) (hnew : NewIsDefault space) :
    (∀ id, established_step space x c E id → ChainMatches P space1 id) ∧
    NewIsDefault space1 := by
  obtain ⟨-, hct, hother, heff⟩ := call_ok_frame hcall
  have hnew_other : ∀ i, i ≠ x →
      (space1.search_node_infos i).status = NodeStatus.NEW →
      (space1.search_node_infos i).creating_operator = none ∧
      (space1.search_node_infos i).parent_state_id = StateID.no_state ∧
      (space1.search_node_infos i).length = 0 ∧
      (space1.search_node_infos i).g = 0 := by
    intro i hix hst
    rw [hother i hix] at hst ⊢
    exact hnew i hst
  rcases c with h | ⟨h, p, op⟩ | ⟨h, p, steps⟩ | ⟨p, op⟩ | ⟨p, op⟩ | h | _ | _ | _ | _
  · -- open_initial
    obtain ⟨hst, hop, hpar, hlen, hg, hst1⟩ := heff
    obtain ⟨dop, dpar, dlen, dg⟩ := hnew x hst
    refine ⟨fun id hid => kept_matches hE hct hother (hop.trans dop.symm)
      (hpar.trans dpar.symm) (hlen.trans dlen.symm) (hg.trans dg.symm) id hid, ?_⟩
    intro i hst
    by_cases hix : i = x
    · rw [hix] at hst
      exact absurd hst hst1
    · exact hnew_other i hix hst
  · -- open
    obtain ⟨hop, hpar, hlen, hg, hst1⟩ := heff
    refine ⟨fun id hid => relinked_matches hE hct hother hop hpar hlen hg id hid, ?_⟩
    intro i hst
    by_cases hix : i = x
    · rw [hix] at hst
      exact absurd hst hst1
    · exact hnew_other i hix hst
  · -- open_steps
    obtain ⟨hop, hpar, hlen, hg, hst1⟩ := heff
    refine ⟨fun id hid => ?_, ?_⟩
    · obtain ⟨hone, hrel⟩ := hid
      by_cases hidx : id = x
      · obtain ⟨op, hsteps⟩ := List.length_eq_one.mp (hone hidx)
        subst hsteps
        exact relinked_matches hE hct hother (by simpa using hop) hpar
          (by simpa using hlen) (by simpa using hg) id hrel
      · obtain ⟨hEid, hnot⟩ := hrel.2 hidx
        refine chainMatches_frame (hE id hEid) hct (fun i hi => ?_) ?_ ?_
        · have hix : i ≠ x := fun hix => hnot (hix ▸ hi)
          rw [hother i hix]
          exact ⟨rfl, rfl⟩
        · rw [hother id hidx]
        · rw [hother id hidx]
    · intro i hst
      by_cases hix : i = x
      · rw [hix] at hst
        exact absurd hst hst1
      · exact hnew_other i hix hst
  · -- reopen
    obtain ⟨hop, hpar, hlen, hg, hst1⟩ := heff
    refine ⟨fun id hid => relinked_matches hE hct hother hop hpar hlen hg id hid, ?_⟩
    intro i hst
    by_cases hix : i = x
    · rw [hix] at hst
      exact absurd hst hst1
    · exact hnew_other i hix hst
  · -- update_parent
    obtain ⟨hop, hpar, hlen, hg, hst1⟩ := heff
    refine ⟨fun id hid => relinked_matches hE hct hother hop hpar hlen hg id hid, ?_⟩
    intro i hst
    by_cases hix : i = x
    · rw [hix] at hst
      exact absurd hst hst1
    · exact hnew_other i hix hst
  all_goals
    obtain ⟨hop, hpar, hlen, hg, hst1⟩ := heff
    refine ⟨fun id hid => kept_matches hE hct hother hop hpar hlen hg id hid, ?_⟩
    intro i hst
    by_cases hix : i = x
    · rw [hix] at hst ⊢
      rw [hop, hpar, hlen, hg]
      exact hnew x (hst1 hst)
    · exact hnew_other i hix hst

/-- A returning sequence of calls: the states that `established` keeps have a
matching chain in the table it leaves. -/
theorem established_matches (P : CostPolicy) :
    ∀ (calls : List (StateID × Call)) (space table : SearchSpace) (E : StateID → Prop),
      (∀ id, E id → ChainMatches P space id) → NewIsDefault space →
      space.run P calls = Result.ok table →
      ∀ id, established P space calls E id → ChainMatches P table id := by
  intro calls
  induction calls with
  | nil =>
    intro space table E hE _ hrun id hid
    simp only [SearchSpace.run, Result.ok.injEq] at hrun
    subst hrun
    exact hE id hid
  | cons xc rest ih =>
    intro space table E hE hnew hrun id hid
    obtain ⟨x, c⟩ := xc
    cases hcall : space.call P x c with
    | ok space1 =>
      simp only [SearchSpace.run, hcall] at hrun
      simp only [established, hcall, Result.state] at hid
      obtain ⟨hE1, hnew1⟩ := established_step_matches hcall hE hnew
      exact ih space1 table _ hE1 hnew1 hrun id hid
    | assertion_failure s =>
      simp [SearchSpace.run, hcall] at hrun

/-- A state other than `id` does not lie on the chain of `id` when `id` has no
creating operator. -/
theorem not_onChain_of_root {space : SearchSpace} {x id : StateID}
    (hop : (space.search_node_infos id).creating_operator = none) (hne : x ≠ id) :
    ¬ OnChain space x id := by
  intro h
  cases h with
  | here => exact hne rfl
  | above hop' _ => rw [hop] at hop'; cases hop'

/-- In a table where `id` has a creating operator and is its own parent, the
loop of `trace_path` never ends from `id`. -/
theorem trace_path_loop_self_parent {space : SearchSpace} {id : StateID} {op : Operator}
    (hop : (space.search_node_infos id).creating_operator = some op)
    (hpar : (space.search_node_infos id).parent_state_id = id) :
    ∀ (fuel : Nat) (acc : List Operator), space.trace_path_loop fuel id acc = none := by
  intro fuel
  induction fuel with
  | zero => intro acc; rfl
  | succ k ih =>
    intro acc
    simp only [SearchSpace.trace_path_loop, hop, hpar]
    exact ih _

/-- C5 as stated fails, in three ways.  After `open_initial` on `s0` and the
multi-step open of `s3` from `s0` with `[x, y]`, no parent was ever replaced,
`s3` has length 2 and g 4, and `trace_path(s3)` returns `[y]`, of length 1 and
adjusted cost 2.  After `open_initial` on `s0`, `open` of `s2` from the
untouched `s1` and `open` of `s1` from `s0`, `s2` has length 1 and g 3, and
`trace_path(s2)` returns `[a, b]`, of length 2 and adjusted cost 5.  After
`s1` was opened from `s0` and reopened with itself as parent, `trace_path(s1)`
returns with no amount of fuel. -/
theorem trace_path_differs_from_record :
    (((SearchSpace.create scenario_mode).run scenario_policy multi_step_calls).succeeded
        = true ∧
      (((SearchSpace.create scenario_mode).run scenario_policy
          multi_step_calls).state.search_node_infos s3).length = 2 ∧
      (((SearchSpace.create scenario_mode).run scenario_policy
          multi_step_calls).state.search_node_infos s3).g = 4 ∧
      ((SearchSpace.create scenario_mode).run scenario_policy
          multi_step_calls).state.trace_path 2 { id := s3 } []
        = some (Result.ok [op_y]) ∧
      ([op_y].map (fun op => scenario_policy.get_adjusted_action_cost op scenario_mode)).sum
        = 2) ∧
    (((SearchSpace.create scenario_mode).run scenario_policy late_parent_calls).succeeded
        = true ∧
      (((SearchSpace.create scenario_mode).run scenario_policy
          late_parent_calls).state.search_node_infos s2).length = 1 ∧
      (((SearchSpace.create scenario_mode).run scenario_policy
          late_parent_calls).state.search_node_infos s2).g = 3 ∧
      ((SearchSpace.create scenario_mode).run scenario_policy
          late_parent_calls).state.trace_path 3 { id := s2 } []
        = some (Result.ok [op_a, op_b]) ∧
      ([op_a, op_b].map
          (fun op => scenario_policy.get_adjusted_action_cost op scenario_mode)).sum
        = 5) ∧
    (((SearchSpace.create scenario_mode).run scenario_policy self_parent_calls).succeeded
        = true ∧
      ∀ fuel : Nat,
        ((SearchSpace.create scenario_mode).run scenario_policy
            self_parent_calls).state.trace_path fuel { id := s1 } [] = none) := by
  refine ⟨by decide, by decide, by decide, fun fuel => ?_⟩
  have hloop := @trace_path_loop_self_parent
    ((SearchSpace.create scenario_mode).run scenario_policy self_parent_calls).state
    s1 op_c (by decide) (by decide) fuel []
  simp only [SearchSpace.trace_path, State.get_id, if_true, hloop]

/-- C5, amended: let `table` be the table left by a returning sequence of
lifecycle calls from the untouched table, and let the chain of `goal` be
established and undisturbed (`ChainEstablished`).  Then `trace_path(goal)`,
with any fuel above `info[goal].length`, returns a sequence of operators whose
length is `info[goal].length` and whose adjusted costs sum to `info[goal].g`. -/
theorem trace_path_matches_record (P : CostPolicy) (mode : OperatorCost)
    (calls : List (StateID × Call)) (table : SearchSpace) (goal : StateID)
    (hrun : (SearchSpace.create mode).run P calls = Result.ok table)
    (hest : ChainEstablished P mode calls goal) :
    ∃ path : List Operator,
      (∀ fuel : Nat, (table.search_node_infos goal).length < fuel →
        table.trace_path fuel { id := goal } [] = some (Result.ok path)) ∧
      (path.length : Int) = (table.search_node_infos goal).length ∧
      (path.map (fun op => P.get_adjusted_action_cost op table.cost_type)).sum
        = (table.search_node_infos goal).g := by
  have hbase : ∀ id, (fun _ : StateID => True) id →
      ChainMatches P (SearchSpace.create mode) id :=
    fun id _ => ⟨[id], [], Chain.root rfl rfl, rfl, rfl⟩
  have hnew : NewIsDefault (SearchSpace.create mode) :=
    fun id _ => ⟨rfl, rfl, rfl, rfl⟩
  obtain ⟨visited, path, hc, hlen, hsum⟩ :=
    established_matches P calls (SearchSpace.create mode) table _ hbase hnew hrun goal hest
  refine ⟨path, fun fuel hfuel => ?_, hlen, hsum⟩
  have hvis := chain_visited_length hc
  refine chain_trace_path hc fuel ?_
  rw [← hlen] at hfuel
  omega

/-- Witness of C5, amended, scenario 3: after the chain `s0 -a-> s1 -b-> s2` was
opened and `s2` was reopened from `s0` with `c`, the chain of `s2` is
established and undisturbed, and `trace_path(s2)` returns `[c]`, which matches
length 1 and g 1. -/
theorem trace_path_matches_record_witness :
    ((SearchSpace.create scenario_mode).run scenario_policy reopen_calls
        = Result.ok
            ((SearchSpace.create scenario_mode).run scenario_policy reopen_calls).state ∧
      ChainEstablished scenario_policy scenario_mode reopen_calls s2) ∧
    (∃ path : List Operator,
      (∀ fuel : Nat,
        (((SearchSpace.create scenario_mode).run scenario_policy
            reopen_calls).state.search_node_infos s2).length < fuel →
        ((SearchSpace.create scenario_mode).run scenario_policy
            reopen_calls).state.trace_path fuel { id := s2 } []
          = some (Result.ok path)) ∧
      (path.length : Int)
        = (((SearchSpace.create scenario_mode).run scenario_policy
            reopen_calls).state.search_node_infos s2).length ∧
      (path.map (fun op => scenario_policy.get_adjusted_action_cost op
          ((SearchSpace.create scenario_mode).run scenario_policy
            reopen_calls).state.cost_type)).sum
        = (((SearchSpace.create scenario_mode).run scenario_policy
            reopen_calls).state.search_node_infos s2).g) ∧
    ((SearchSpace.create scenario_mode).run scenario_policy
        reopen_calls).state.trace_path 2 { id := s2 } []
      = some (Result.ok [op_c]) ∧
    (((SearchSpace.create scenario_mode).run scenario_policy
        reopen_calls).state.search_node_infos s2).length = 1 ∧
    (((SearchSpace.create scenario_mode).run scenario_policy
        reopen_calls).state.search_node_infos s2).g = 1 := by
  have hest : ChainEstablished scenario_policy scenario_mode reopen_calls s2 := by
    refine ⟨fun _ => ⟨⟨fun h => absurd h (by decide), fun _ =>
      ⟨⟨fun h => absurd h (by decide), fun _ =>
        ⟨trivial, not_onChain_of_root (by decide) (by decide)⟩⟩,
       not_onChain_of_root (by decide) (by decide)⟩⟩,
      not_onChain_of_root (by decide) (by decide)⟩, fun h => absurd rfl h⟩
  exact ⟨⟨rfl, hest⟩,
    trace_path_matches_record scenario_policy scenario_mode reopen_calls _ s2 rfl hest,
    by decide, by decide, by decide⟩

/-! ### Preconditions and frames of the transitions -/

/-- C11: `open_initial`, the single-operator `open` and the multi-step `open`
each fail their assertion exactly when the status of the record is not NEW, and
a failed call leaves the record as it was: either the status is NEW and the
call returns, or the status is not NEW and the call fails with the view
unchanged.  In particular `mark_as_dead_end` on an untouched state leaves
status DEAD_END, g = 0 and parent NO_STATE, and each of the three calls then
fails its assertion. -/
theorem open_calls_require_new (P : CostPolicy) (node parent_node : SearchNode)
    (parent_op : Operator) (steps : List Operator) (h : Int)
    (id : StateID) (mode : OperatorCost) :
    ((node.info.status = NodeStatus.NEW ∧ (node.open_initial h).succeeded = true) ∨
      (node.info.status ≠ NodeStatus.NEW ∧
        node.open_initial h = Result.assertion_failure node)) ∧
    ((node.info.status = NodeStatus.NEW ∧
        (node.open P h parent_node parent_op).succeeded = true) ∨
      (node.info.status ≠ NodeStatus.NEW ∧
        node.open P h parent_node parent_op = Result.assertion_failure node)) ∧
    ((node.info.status = NodeStatus.NEW ∧
        (node.open_steps P h parent_node steps).succeeded = true) ∨
      (node.info.status ≠ NodeStatus.NEW ∧
        node.open_steps P h parent_node steps = Result.assertion_failure node)) ∧
    (({ state_id := id, info := SearchNodeInfo.default_value, cost_type := mode }
        : SearchNode).mark_as_dead_end
      = Result.ok { state_id := id,
                    info := { SearchNodeInfo.default_value with
                      status := NodeStatus.DEAD_END },
                    cost_type := mode }) ∧
    ({ SearchNodeInfo.default_value with status := NodeStatus.DEAD_END }
        : SearchNodeInfo).g = 0 ∧
    ({ SearchNodeInfo.default_value with status := NodeStatus.DEAD_END }
        : SearchNodeInfo).parent_state_id = StateID.no_state ∧
    (({ state_id := id, info := SearchNodeInfo.default_value, cost_type := mode }
        : SearchNode).mark_as_dead_end.state.open_initial h).succeeded = false ∧
    (SearchNode.open P
      ({ state_id := id, info := SearchNodeInfo.default_value, cost_type := mode }
        : SearchNode).mark_as_dead_end.state h parent_node parent_op).succeeded = false ∧
    (SearchNode.open_steps P
      ({ state_id := id, info := SearchNodeInfo.default_value, cost_type := mode }
        : SearchNode).mark_as_dead_end.state h parent_node steps).succeeded = false := by
  refine ⟨?_, ?_, ?_, rfl, rfl, rfl, rfl, rfl, rfl⟩
  · by_cases hnew : node.info.status = NodeStatus.NEW
    · exact Or.inl ⟨hnew, by simp [SearchNode.open_initial, hnew, Result.succeeded]⟩
    · exact Or.inr ⟨hnew, by simp [SearchNode.open_initial, hnew]⟩
  · by_cases hnew : node.info.status = NodeStatus.NEW
    · exact Or.inl ⟨hnew, by simp [SearchNode.open, hnew, Result.succeeded]⟩
    · exact Or.inr ⟨hnew, by simp [SearchNode.open, hnew]⟩
  · by_cases hnew : node.info.status = NodeStatus.NEW
    · exact Or.inl ⟨hnew, by simp [SearchNode.open_steps, hnew, Result.succeeded]⟩
    · exact Or.inr ⟨hnew, by simp [SearchNode.open_steps, hnew]⟩

/-- C12: `close` returns exactly when the status is OPEN.  It then leaves status
CLOSED and every other field as it was; otherwise it fails its assertion and
leaves the record as it was. -/
theorem close_contract (node : SearchNode) :
    (node.close.succeeded = true ↔ node.info.status = NodeStatus.OPEN) ∧
    node.close
      = if node.info.status = NodeStatus.OPEN then
          Result.ok { node with info := { node.info with status := NodeStatus.CLOSED } }
        else Result.assertion_failure node := by
  unfold SearchNode.close
  by_cases hopen : node.info.status = NodeStatus.OPEN <;> simp [hopen, Result.succeeded]

/-- C13: `mark_as_dead_end` has no assertion: whatever the status, it returns
and leaves status DEAD_END and every other field as it was; applying it twice
leaves the same record as applying it once. -/
theorem mark_as_dead_end_idempotent (node : SearchNode) :
    node.mark_as_dead_end
      = Result.ok { node with info := { node.info with status := NodeStatus.DEAD_END } } ∧
    node.mark_as_dead_end.state.mark_as_dead_end = node.mark_as_dead_end := by
  exact ⟨rfl, rfl⟩

/-- C14: `set_h_dirty` and `clear_h_dirty` have no assertion and write
`h_is_dirty` only; `is_h_dirty` reads true after the first and false after the
second; `increase_h` leaves `h_is_dirty` as it was, whether it returns or
fails. -/
theorem h_dirty_flag_contract (node : SearchNode) (h : Int) :
    node.set_h_dirty
      = Result.ok { node with info := { node.info with h_is_dirty := true } } ∧
    node.set_h_dirty.state.is_h_dirty = true ∧
    node.clear_h_dirty
      = Result.ok { node with info := { node.info with h_is_dirty := false } } ∧
    node.clear_h_dirty.state.is_h_dirty = false ∧
    (node.increase_h h).state.is_h_dirty = node.is_h_dirty := by
  refine ⟨rfl, rfl, rfl, rfl, ?_⟩
  unfold SearchNode.increase_h
  by_cases hge : h ≥ node.info.h <;> simp [hge, Result.state, SearchNode.is_h_dirty]

/-! ### Dead ends -/

/-- Whatever call is made on whatever state, and whether it returns or fails, a
record with status DEAD_END keeps that status. -/
theorem call_keeps_dead_end (P : CostPolicy) (space : SearchSpace) (x : StateID)
    (c : Call) (i : StateID)
    (hdead : (space.search_node_infos i).status = NodeStatus.DEAD_END) :
    ((space.call P x c).state.search_node_infos i).status = NodeStatus.DEAD_END := by
  by_cases hx : x = StateID.no_state
  · simpa [SearchSpace.call, SearchSpace.get_node, SearchNode.create, hx, Result.state]
      using hdead
  rw [SearchSpace.call, get_node_of_ne _ hx]
  have hgoal : ∀ r : Result SearchNode, r.state.state_id = x →
      (r.state.info.status = NodeStatus.DEAD_END ∨
        r.state.info.status = (space.search_node_infos x).status) →
      (((r.map space.store).state).search_node_infos i).status = NodeStatus.DEAD_END := by
    intro r hid hst
    have hmap : (r.map space.store).state = space.store r.state := by
      cases r <;> rfl
    rw [hmap]
    simp only [SearchSpace.store, set_apply, hid]
    by_cases hix : i = x
    · rw [if_pos hix]
      rcases hst with hst | hst
      · exact hst
      · rw [hst, ← hix]; exact hdead
    · rw [if_neg hix]; exact hdead
  by_cases hxd : (space.search_node_infos x).status = NodeStatus.DEAD_END
  · -- the record of `x` is a dead end: the call leaves its status
    rcases c with h | ⟨h, p, op⟩ | ⟨h, p, steps⟩ | ⟨p, op⟩ | ⟨p, op⟩ | h | _ | _ | _ | _
    · exact hgoal _ (by simp [SearchNode.open_initial, hxd, Result.state])
        (by simp [SearchNode.open_initial, hxd, Result.state])
    · by_cases hp : p = StateID.no_state
      · simpa [SearchSpace.get_node, SearchNode.create, hp, Result.state] using hdead
      · simp only [get_node_of_ne _ hp]
        exact hgoal _ (by simp [SearchNode.open, hxd, Result.state])
          (by simp [SearchNode.open, hxd, Result.state])
    · by_cases hp : p = StateID.no_state
      · simpa [SearchSpace.get_node, SearchNode.create, hp, Result.state] using hdead
      · simp only [get_node_of_ne _ hp]
        exact hgoal _ (by simp [SearchNode.open_steps, hxd, Result.state])
          (by simp [SearchNode.open_steps, hxd, Result.state])
    · by_cases hp : p = StateID.no_state
      · simpa [SearchSpace.get_node, SearchNode.create, hp, Result.state] using hdead
      · simp only [get_node_of_ne _ hp]
        exact hgoal _
          (by simp [SearchNode.reopen, SearchNode.update_parent, hxd, Result.state])
          (by simp [SearchNode.reopen, SearchNode.update_parent, hxd, Result.state])
    · by_cases hp : p = StateID.no_state
      · simpa [SearchSpace.get_node, SearchNode.create, hp, Result.state] using hdead
      · simp only [get_node_of_ne _ hp]
        exact hgoal _ (by simp [SearchNode.update_parent, hxd, Result.state])
          (by simp [SearchNode.update_parent, hxd, Result.state])
    · refine hgoal _ ?_ ?_ <;>
        (simp only [SearchNode.increase_h]; split <;> simp [Result.state])
    · exact hgoal _ rfl (Or.inr rfl)
    · exact hgoal _ rfl (Or.inr rfl)
    · exact hgoal _ (by simp [SearchNode.close, hxd, Result.state])
        (by simp [SearchNode.close, hxd, Result.state])
    · exact hgoal _ rfl (Or.inl rfl)
  · -- the call is made on another state than `i`
    have hix : i ≠ x := fun hix => hxd (hix ▸ hdead)
    have hother : ∀ r : Result SearchNode, r.state.state_id = x →
        (((r.map space.store).state).search_node_infos i).status
          = NodeStatus.DEAD_END := by
      intro r hid
      have hmap : (r.map space.store).state = space.store r.state := by
        cases r <;> rfl
      rw [hmap]
      simp only [SearchSpace.store, set_apply, hid, if_neg hix]
      exact hdead
    rcases c with h | ⟨h, p, op⟩ | ⟨h, p, steps⟩ | ⟨p, op⟩ | ⟨p, op⟩ | h | _ | _ | _ | _
    · refine hother _ ?_
      simp only [SearchNode.open_initial]; split <;> simp [Result.state]
    · by_cases hp : p = StateID.no_state
      · simpa [SearchSpace.get_node, SearchNode.create, hp, Result.state] using hdead
      · simp only [get_node_of_ne _ hp]
        refine hother _ ?_
        simp only [SearchNode.open]; split <;> simp [Result.state]
    · by_cases hp : p = StateID.no_state
      · simpa [SearchSpace.get_node, SearchNode.create, hp, Result.state] using hdead
      · simp only [get_node_of_ne _ hp]
        refine hother _ ?_
        simp only [SearchNode.open_steps]; split <;> simp [Result.state]
    · by_cases hp : p = StateID.no_state
      · simpa [SearchSpace.get_node, SearchNode.create, hp, Result.state] using hdead
      · simp only [get_node_of_ne _ hp]
        refine hother _ ?_
        by_cases hst : (space.search_node_infos x).status = NodeStatus.OPEN ∨
            (space.search_node_infos x).status = NodeStatus.CLOSED
        · simp [SearchNode.reopen, SearchNode.update_parent, hst, Result.state]
        · simp [SearchNode.reopen, SearchNode.update_parent, hst, Result.state]
    · by_cases hp : p = StateID.no_state
      · simpa [SearchSpace.get_node, SearchNode.create, hp, Result.state] using hdead
      · simp only [get_node_of_ne _ hp]
        refine hother _ ?_
        simp only [SearchNode.update_parent]; split <;> simp [Result.state]
    · refine hother _ ?_
      simp only [SearchNode.increase_h]; split <;> simp [Result.state]
    · exact hother _ rfl
    · exact hother _ rfl
    · refine hother _ ?_
      simp only [SearchNode.close]; split <;> simp [Result.state]
    · exact hother _ rfl

/-- A sequence of calls, stopped or not by a failing assertion, leaves the
status of a dead end as it is. -/
theorem run_keeps_dead_end (P : CostPolicy) :
    ∀ (calls : List (StateID × Call)) (space : SearchSpace) (i : StateID),
      (space.search_node_infos i).status = NodeStatus.DEAD_END →
      ((space.run P calls).state.search_node_infos i).status = NodeStatus.DEAD_END := by
  intro calls
  induction calls with
  | nil => intro space i hdead; exact hdead
  | cons xc rest ih =>
    intro space i hdead
    obtain ⟨x, c⟩ := xc
    have hstep := call_keeps_dead_end P space x c i hdead
    cases hcall : space.call P x c with
    | ok space1 =>
      rw [hcall] at hstep
      simp only [SearchSpace.run, hcall]
      exact ih space1 i hstep
    | assertion_failure space1 =>
      rw [hcall] at hstep
      simp only [SearchSpace.run, hcall]
      exact hstep

/-- C18 as stated fails for `increase_h`: on the dead end `s4` with stored h = 5
the call `increase_h(4)` does not return, it fails its assertion. -/
theorem increase_h_on_dead_end_fails :
    dead_node.info.status = NodeStatus.DEAD_END ∧
    dead_node.info.h = 5 ∧
    (dead_node.increase_h 4).succeeded = false ∧
    dead_node.increase_h 4 = Result.assertion_failure dead_node := by
  decide

/-- C18, amended: on a record with status DEAD_END the calls `open_initial`,
both forms of `open`, `close`, `reopen` and `update_parent` fail their
assertion and leave the record as it was; `mark_as_dead_end`, `set_h_dirty` and
`clear_h_dirty` return and leave status DEAD_END; `increase_h` returns and
leaves status DEAD_END when its argument is not below the stored h, and
otherwise fails and leaves the record as it was.  No sequence of calls on the
table changes the status of a record that is DEAD_END. -/
theorem dead_end_absorbing (P : CostPolicy) (node parent_node : SearchNode)
    (parent_op : Operator) (steps : List Operator) (h : Int)
    (hdead : node.info.status = NodeStatus.DEAD_END) :
    node.open_initial h = Result.assertion_failure node ∧
    node.open P h parent_node parent_op = Result.assertion_failure node ∧
    node.open_steps P h parent_node steps = Result.assertion_failure node ∧
    node.close = Result.assertion_failure node ∧
    node.reopen P parent_node parent_op = Result.assertion_failure node ∧
    node.update_parent P parent_node parent_op = Result.assertion_failure node ∧
    (node.mark_as_dead_end.succeeded = true ∧
      node.mark_as_dead_end.state.info.status = NodeStatus.DEAD_END) ∧
    (node.set_h_dirty.succeeded = true ∧
      node.set_h_dirty.state.info.status = NodeStatus.DEAD_END) ∧
    (node.clear_h_dirty.succeeded = true ∧
      node.clear_h_dirty.state.info.status = NodeStatus.DEAD_END) ∧
    ((node.info.h ≤ h ∧ (node.increase_h h).succeeded = true ∧
        (node.increase_h h).state.info.status = NodeStatus.DEAD_END) ∨
      (h < node.info.h ∧ node.increase_h h = Result.assertion_failure node)) ∧
    ∀ (space : SearchSpace) (i : StateID) (calls : List (StateID × Call)),
      (space.search_node_infos i).status = NodeStatus.DEAD_END →
      ((space.run P calls).state.search_node_infos i).status = NodeStatus.DEAD_END := by
  refine ⟨?_, ?_, ?_, ?_, ?_, ?_, ⟨rfl, rfl⟩, ⟨rfl, hdead⟩, ⟨rfl, hdead⟩, ?_,
    fun space i calls hi => run_keeps_dead_end P calls space i hi⟩
  · simp [SearchNode.open_initial, hdead]
  · simp [SearchNode.open, hdead]
  · simp [SearchNode.open_steps, hdead]
  · simp [SearchNode.close, hdead]
  · simp [SearchNode.reopen, SearchNode.update_parent, hdead]
  · simp [SearchNode.update_parent, hdead]
  · by_cases hge : h ≥ node.info.h
    · exact Or.inl ⟨hge, by simp [SearchNode.increase_h, hge, Result.succeeded],
        by simp [SearchNode.increase_h, hge, Result.state, hdead]⟩
    · exact Or.inr ⟨lt_of_not_ge hge, by simp [SearchNode.increase_h, hge]⟩

/-- Witness of C18, amended: the dead end `s4` with stored h = 5, the root as
parent, and the argument 4 for `increase_h`. -/
theorem dead_end_absorbing_witness :
    dead_node.info.status = NodeStatus.DEAD_END ∧
    (dead_node.open_initial 4 = Result.assertion_failure dead_node ∧
    dead_node.open scenario_policy 4 root_node op_a = Result.assertion_failure dead_node ∧
    dead_node.open_steps scenario_policy 4 root_node [op_x, op_y]
      = Result.assertion_failure dead_node ∧
    dead_node.close = Result.assertion_failure dead_node ∧
    dead_node.reopen scenario_policy root_node op_a = Result.assertion_failure dead_node ∧
    dead_node.update_parent scenario_policy root_node op_a
      = Result.assertion_failure dead_node ∧
    (dead_node.mark_as_dead_end.succeeded = true ∧
      dead_node.mark_as_dead_end.state.info.status = NodeStatus.DEAD_END) ∧
    (dead_node.set_h_dirty.succeeded = true ∧
      dead_node.set_h_dirty.state.info.status = NodeStatus.DEAD_END) ∧
    (dead_node.clear_h_dirty.succeeded = true ∧
      dead_node.clear_h_dirty.state.info.status = NodeStatus.DEAD_END) ∧
    ((dead_node.info.h ≤ 4 ∧ (dead_node.increase_h 4).succeeded = true ∧
        (dead_node.increase_h 4).state.info.status = NodeStatus.DEAD_END) ∨
      (4 < dead_node.info.h ∧ dead_node.increase_h 4 = Result.assertion_failure dead_node)) ∧
    ∀ (space : SearchSpace) (i : StateID) (calls : List (StateID × Call)),
      (space.search_node_infos i).status = NodeStatus.DEAD_END →
      ((space.run scenario_policy calls).state.search_node_infos i).status
        = NodeStatus.DEAD_END) :=
  ⟨by decide,
   dead_end_absorbing scenario_policy dead_node root_node op_a [op_x, op_y] 4 (by decide)⟩

/-! ### Malformed chains -/

/-- When the chain of `id` reaches a record without creating operator but with
a parent, the loop of `trace_path` fails its assertion as soon as the fuel
covers the walk. -/
theorem onChain_trace_path_loop_fails {space : SearchSpace} {x id : StateID}
    (hon : OnChain space x id)
    (hop : (space.search_node_infos x).creating_operator = none)
    (hpar : (space.search_node_infos x).parent_state_id ≠ StateID.no_state) :
    ∃ (n : Nat) (ops : List Operator), ∀ (acc : List Operator) (fuel : Nat), n ≤ fuel →
      space.trace_path_loop fuel id acc = some (Result.assertion_failure (acc ++ ops)) := by
  induction hon with
  | here =>
    refine ⟨1, [], fun acc fuel hfuel => ?_⟩
    cases fuel with
    | zero => omega
    | succ k => simp [SearchSpace.trace_path_loop, hop, hpar]
  | above hop' hrest ih =>
    obtain ⟨n, ops, hn⟩ := ih
    rename_i op
    refine ⟨n + 1, op :: ops, fun acc fuel hfuel => ?_⟩
    cases fuel with
    | zero => omega
    | succ k =>
      simp only [SearchSpace.trace_path_loop, hop']
      rw [hn _ k (by omega)]
      simp

/-- With the table read as a total mapping: if the chain of `goal` reaches a
record whose creating operator is absent while its parent is present, then
`trace_path`, given enough fuel, fails its own assertion; and from a record
whose creating operator is present while its parent is NO_STATE the loop goes
on with a lookup at NO_STATE. -/
theorem trace_path_asserts_on_parent_without_operator (space : SearchSpace)
    (goal x : StateID) (hon : OnChain space x goal)
    (hop : (space.search_node_infos x).creating_operator = none)
    (hpar : (space.search_node_infos x).parent_state_id ≠ StateID.no_state) :
    (∃ (n : Nat) (path : List Operator), ∀ fuel, n ≤ fuel →
      space.trace_path fuel { id := goal } [] = some (Result.assertion_failure path)) ∧
    ∀ (id : StateID) (op : Operator) (fuel : Nat) (acc : List Operator),
      (space.search_node_infos id).creating_operator = some op →
      (space.search_node_infos id).parent_state_id = StateID.no_state →
      space.trace_path_loop (fuel + 1) id acc
        = space.trace_path_loop fuel StateID.no_state (acc ++ [op]) := by
  constructor
  · obtain ⟨n, ops, hn⟩ := onChain_trace_path_loop_fails hon hop hpar
    refine ⟨n, ops, fun fuel hfuel => ?_⟩
    simp [SearchSpace.trace_path, State.get_id, hn [] fuel hfuel]
  · intro id op fuel acc h1 h2
    simp only [SearchSpace.trace_path_loop, h1, h2]

/-- On a chain that visits no `NO_STATE`, reading the table through
`checked_lookup` changes nothing: the loop returns the same operators. -/
theorem chain_trace_path_loop_checked {space : SearchSpace} {id : StateID}
    {visited : List StateID} {ops : List Operator} (hc : Chain space id visited ops)
    (hreal : StateID.no_state ∉ visited) :
    ∀ (acc : List Operator) (fuel : Nat), visited.length ≤ fuel →
      space.trace_path_loop_checked fuel id acc = some (Result.ok (acc ++ ops.reverse)) := by
  induction hc with
  | @root id hop hpar =>
    intro acc fuel hfuel
    have hid : id ≠ StateID.no_state := fun h => hreal (by simp [h])
    cases fuel with
    | zero => simp at hfuel
    | succ k =>
      simp [SearchSpace.trace_path_loop_checked, SearchSpace.checked_lookup, hid, hop, hpar]
  | @link id op visited ops hop hrest ih =>
    intro acc fuel hfuel
    have hid : id ≠ StateID.no_state := fun h => hreal (by simp [h])
    have hrest' : StateID.no_state ∉ visited :=
      fun h => hreal (List.mem_cons_of_mem _ h)
    cases fuel with
    | zero => simp at hfuel
    | succ k =>
      have hk : visited.length ≤ k := Nat.le_of_succ_le_succ hfuel
      simp only [SearchSpace.trace_path_loop_checked, SearchSpace.checked_lookup,
        if_neg hid, hop]
      rw [ih hrest' _ k hk]
      simp

/-- On a chain that visits no `NO_STATE`, `trace_path` read through
`checked_lookup` returns what `trace_path` returns. -/
theorem chain_trace_path_checked {space : SearchSpace} {id : StateID}
    {visited : List StateID} {ops : List Operator} (hc : Chain space id visited ops)
    (hreal : StateID.no_state ∉ visited) (fuel : Nat) (hfuel : visited.length ≤ fuel) :
    space.trace_path_checked fuel { id := id } []
      = space.trace_path fuel { id := id } [] := by
  rw [chain_trace_path hc fuel hfuel]
  simp [SearchSpace.trace_path_checked, State.get_id,
    chain_trace_path_loop_checked hc hreal [] fuel hfuel]

/-- A call that returns named a parent other than `no_state`, if it named one,
and left the status of its state as it was if it is one of `increase_h`,
`set_h_dirty`, `clear_h_dirty`, and other than NEW if it is not. -/
theorem call_ok_status {P : CostPolicy} {space space1 : SearchSpace} {x : StateID}
    {c : Call} (hcall : space.call P x c = Result.ok space1) :
    (∀ p, c.parent_id = some p → p ≠ StateID.no_state) ∧
    (c.keeps_status = true →
      (space1.search_node_infos x).status = (space.search_node_infos x).status) ∧
    (c.keeps_status = false → (space1.search_node_infos x).status ≠ NodeStatus.NEW) := by
  have hx : x ≠ StateID.no_state := (call_ok_frame hcall).1
  have heff := (call_ok_frame hcall).2.2.2
  rw [SearchSpace.call, get_node_of_ne _ hx] at hcall
  rcases c with h | ⟨h, p, op⟩ | ⟨h, p, steps⟩ | ⟨p, op⟩ | ⟨p, op⟩ | h | _ | _ | _ | _
  · exact ⟨by simp [Call.parent_id], by simp [Call.keeps_status], fun _ => heff.2.2.2.2.2⟩
  · refine ⟨?_, by simp [Call.keeps_status], fun _ => heff.2.2.2.2⟩
    intro q hq hqn
    simp only [Call.parent_id, Option.some.injEq] at hq
    subst hq
    simp [SearchSpace.get_node, SearchNode.create, hqn] at hcall
  · refine ⟨?_, by simp [Call.keeps_status], fun _ => heff.2.2.2.2⟩
    intro q hq hqn
    simp only [Call.parent_id, Option.some.injEq] at hq
    subst hq
    simp [SearchSpace.get_node, SearchNode.create, hqn] at hcall
  · refine ⟨?_, by simp [Call.keeps_status], fun _ => heff.2.2.2.2⟩
    intro q hq hqn
    simp only [Call.parent_id, Option.some.injEq] at hq
    subst hq
    simp [SearchSpace.get_node, SearchNode.create, hqn] at hcall
  · refine ⟨?_, by simp [Call.keeps_status], fun _ => heff.2.2.2.2⟩
    intro q hq hqn
    simp only [Call.parent_id, Option.some.injEq] at hq
    subst hq
    simp [SearchSpace.get_node, SearchNode.create, hqn] at hcall
  · refine ⟨by simp [Call.parent_id], fun _ => ?_, by simp [Call.keeps_status]⟩
    simp only [SearchNode.increase_h] at hcall
    split at hcall <;> simp [Result.map] at hcall
    subst hcall
    simp [SearchSpace.store, set_apply]
  · refine ⟨by simp [Call.parent_id], fun _ => ?_, by simp [Call.keeps_status]⟩
    simp [SearchNode.set_h_dirty, Result.map] at hcall
    subst hcall
    simp [SearchSpace.store, set_apply]
  · refine ⟨by simp [Call.parent_id], fun _ => ?_, by simp [Call.keeps_status]⟩
    simp [SearchNode.clear_h_dirty, Result.map] at hcall
    subst hcall
    simp [SearchSpace.store, set_apply]
  · refine ⟨by simp [Call.parent_id], by simp [Call.keeps_status], fun _ => ?_⟩
    simp only [SearchNode.close] at hcall
    split at hcall <;> simp [Result.map] at hcall
    subst hcall
    simp [SearchSpace.store, set_apply]
  · refine ⟨by simp [Call.parent_id], by simp [Call.keeps_status], fun _ => ?_⟩
    simp [SearchNode.mark_as_dead_end, Result.map] at hcall
    subst hcall
    simp [SearchSpace.store, set_apply]

/-- A returning call, with at least one step if it is a multi-step open, keeps
every record a root or a linked record. -/
theorem call_keeps_root_or_linked {P : CostPolicy} {space space1 : SearchSpace}
    {x : StateID} {c : Call} (hcall : space.call P x c = Result.ok space1)
    (hsteps : ∀ (h : Int) (parent : StateID) (steps : List Operator),
      c = Call.open_steps h parent steps → steps ≠ [])
    (hinv : ∀ id, (space.search_node_infos id).root_or_linked) :
    ∀ id, (space1.search_node_infos id).root_or_linked := by
  obtain ⟨-, -, hother, heff⟩ := call_ok_frame hcall
  obtain ⟨hparent, -, -⟩ := call_ok_status hcall
  intro id
  by_cases hid : id = x
  swap
  · rw [hother id hid]; exact hinv id
  subst hid
  have hlinked : ∀ (p : StateID) (n : Int),
      p ≠ StateID.no_state → 0 < n →
      (space1.search_node_infos id).creating_operator ≠ none →
      (space1.search_node_infos id).parent_state_id = p →
      (space1.search_node_infos id).length = (space.search_node_infos p).length + n →
      (space1.search_node_infos id).root_or_linked := by
    intro p n hp hn hop hpar hlen
    have hp0 := (hinv p).1
    exact ⟨by omega, Or.inr ⟨by omega, by rw [hpar]; exact hp, hop⟩⟩
  rcases c with h | ⟨h, p, op⟩ | ⟨h, p, steps⟩ | ⟨p, op⟩ | ⟨p, op⟩ | h | _ | _ | _ | _
  · obtain ⟨-, hop, hpar, hlen, -, -⟩ := heff
    exact ⟨by omega, Or.inl ⟨hlen, hpar, hop⟩⟩
  · obtain ⟨hop, hpar, hlen, -, -⟩ := heff
    exact hlinked p 1 (hparent p rfl) (by omega) (by simp [hop]) hpar hlen
  · obtain ⟨hop, hpar, hlen, -, -⟩ := heff
    have hne := hsteps h p steps rfl
    have hpos : 0 < steps.length := List.length_pos.mpr hne
    refine hlinked p steps.length (hparent p rfl) (by omega) ?_ hpar hlen
    rw [hop, List.getLast?_eq_getLast _ hne]
    simp
  · obtain ⟨hop, hpar, hlen, -, -⟩ := heff
    exact hlinked p 1 (hparent p rfl) (by omega) (by simp [hop]) hpar hlen
  · obtain ⟨hop, hpar, hlen, -, -⟩ := heff
    exact hlinked p 1 (hparent p rfl) (by omega) (by simp [hop]) hpar hlen
  all_goals
    obtain ⟨hop, hpar, hlen, -, -⟩ := heff
    have hold := hinv id
    unfold SearchNodeInfo.root_or_linked at hold ⊢
    rw [hop, hpar, hlen]
    exact hold

/-- A returning sequence of calls whose multi-step opens have at least one step
keeps every record a root or a linked record. -/
theorem run_keeps_root_or_linked (P : CostPolicy) :
    ∀ (calls : List (StateID × Call)) (space table : SearchSpace),
      (∀ id, (space.search_node_infos id).root_or_linked) →
      steps_nonempty calls →
      space.run P calls = Result.ok table →
      ∀ id, (table.search_node_infos id).root_or_linked := by
  intro calls
  induction calls with
  | nil =>
    intro space table hinv _ hrun
    simp only [SearchSpace.run, Result.ok.injEq] at hrun
    subst hrun
    exact hinv
  | cons xc rest ih =>
    intro space table hinv hsteps hrun
    obtain ⟨x, c⟩ := xc
    cases hcall : space.call P x c with
    | ok space1 =>
      simp only [SearchSpace.run, hcall] at hrun
      refine ih space1 table ?_ (fun yc hyc => hsteps yc (List.mem_cons_of_mem _ hyc)) hrun
      exact call_keeps_root_or_linked hcall
        (fun h p steps hc => hsteps (x, c) (List.mem_cons_self _ _) h p steps hc) hinv
    | assertion_failure s => simp [SearchSpace.run, hcall] at hrun

/-- C15: let `table` be left by a returning sequence of lifecycle calls from the
untouched table, the multi-step opens among them having at least one step.
Then every record, whatever its status and so every record with status other
than NEW, has length ≥ 0 and is either a root (length 0, parent NO_STATE, no
creating operator) or a linked record (length > 0, a parent, a creating
operator); so creating_operator = none iff parent_state_id = NO_STATE iff
length = 0. -/
theorem lifecycle_records_root_or_linked (P : CostPolicy) (mode : OperatorCost)
    (calls : List (StateID × Call)) (table : SearchSpace) (id : StateID)
    (hrun : (SearchSpace.create mode).run P calls = Result.ok table)
    (hsteps : steps_nonempty calls) :
    0 ≤ (table.search_node_infos id).length ∧
    (((table.search_node_infos id).length = 0 ∧
        (table.search_node_infos id).parent_state_id = StateID.no_state ∧
        (table.search_node_infos id).creating_operator = none) ∨
      (0 < (table.search_node_infos id).length ∧
        (table.search_node_infos id).parent_state_id ≠ StateID.no_state ∧
        (table.search_node_infos id).creating_operator ≠ none)) ∧
    ((table.search_node_infos id).creating_operator = none ↔
      (table.search_node_infos id).parent_state_id = StateID.no_state) ∧
    ((table.search_node_infos id).parent_state_id = StateID.no_state ↔
      (table.search_node_infos id).length = 0) := by
  have hbase : ∀ i, ((SearchSpace.create mode).search_node_infos i).root_or_linked :=
    fun i => ⟨le_refl _, Or.inl ⟨rfl, rfl, rfl⟩⟩
  have hinv := run_keeps_root_or_linked P calls _ table hbase hsteps hrun id
  obtain ⟨hlen, hshape⟩ := hinv
  refine ⟨hlen, hshape, ?_, ?_⟩
  · rcases hshape with ⟨_, hpar, hop⟩ | ⟨_, hpar, hop⟩
    · simp [hpar, hop]
    · simp [hpar, hop]
  · rcases hshape with ⟨hl, hpar, _⟩ | ⟨hl, hpar, _⟩
    · simp [hpar, hl]
    · simp [hpar, ne_of_gt hl]

/-- The multi-step open of scenario 4 has two steps. -/
theorem multi_step_calls_nonempty : steps_nonempty multi_step_calls := by
  intro xc hxc h p steps heq
  simp only [multi_step_calls, List.mem_cons, List.mem_singleton, List.not_mem_nil,
    or_false] at hxc
  rcases hxc with rfl | rfl
  · cases heq
  · simp only [Call.open_steps.injEq] at heq
    rw [← heq.2.2]
    simp

/-- Witness of C15, scenario 4: after `open_initial` on `s0` and the multi-step
open of `s3` from `s0` with `[x, y]`, the record of `s3` is a linked record of
length 2. -/
theorem lifecycle_records_root_or_linked_witness :
    ((SearchSpace.create scenario_mode).run scenario_policy multi_step_calls
        = Result.ok
            ((SearchSpace.create scenario_mode).run scenario_policy multi_step_calls).state ∧
      steps_nonempty multi_step_calls) ∧
    (0 ≤ (((SearchSpace.create scenario_mode).run scenario_policy
          multi_step_calls).state.search_node_infos s3).length ∧
    (((((SearchSpace.create scenario_mode).run scenario_policy
            multi_step_calls).state.search_node_infos s3).length = 0 ∧
        (((SearchSpace.create scenario_mode).run scenario_policy
            multi_step_calls).state.search_node_infos s3).parent_state_id
          = StateID.no_state ∧
        (((SearchSpace.create scenario_mode).run scenario_policy
            multi_step_calls).state.search_node_infos s3).creating_operator = none) ∨
      (0 < (((SearchSpace.create scenario_mode).run scenario_policy
            multi_step_calls).state.search_node_infos s3).length ∧
        (((SearchSpace.create scenario_mode).run scenario_policy
            multi_step_calls).state.search_node_infos s3).parent_state_id
          ≠ StateID.no_state ∧
        (((SearchSpace.create scenario_mode).run scenario_policy
            multi_step_calls).state.search_node_infos s3).creating_operator ≠ none)) ∧
    ((((SearchSpace.create scenario_mode).run scenario_policy
          multi_step_calls).state.search_node_infos s3).creating_operator = none ↔
      (((SearchSpace.create scenario_mode).run scenario_policy
          multi_step_calls).state.search_node_infos s3).parent_state_id
        = StateID.no_state) ∧
    ((((SearchSpace.create scenario_mode).run scenario_policy
          multi_step_calls).state.search_node_infos s3).parent_state_id
        = StateID.no_state ↔
      (((SearchSpace.create scenario_mode).run scenario_policy
          multi_step_calls).state.search_node_infos s3).length = 0)) ∧
    (((SearchSpace.create scenario_mode).run scenario_policy
        multi_step_calls).state.search_node_infos s3).length = 2 ∧
    (((SearchSpace.create scenario_mode).run scenario_policy
        multi_step_calls).state.search_node_infos s3).status = NodeStatus.OPEN :=
  ⟨⟨rfl, multi_step_calls_nonempty⟩,
   lifecycle_records_root_or_linked scenario_policy scenario_mode multi_step_calls _ s3
     rfl multi_step_calls_nonempty,
   by decide, by decide⟩

/-- A returning sequence of calls: the status of `id` is NEW at the end exactly
when it was NEW at the start and every call made on `id` was one of
`increase_h`, `set_h_dirty`, `clear_h_dirty`. -/
theorem run_status_new_iff (P : CostPolicy) :
    ∀ (calls : List (StateID × Call)) (space table : SearchSpace) (id : StateID),
      space.run P calls = Result.ok table →
      ((table.search_node_infos id).status = NodeStatus.NEW ↔
        (space.search_node_infos id).status = NodeStatus.NEW ∧
        ∀ xc ∈ calls, xc.1 = id → xc.2.keeps_status = true) := by
  intro calls
  induction calls with
  | nil =>
    intro space table id hrun
    simp only [SearchSpace.run, Result.ok.injEq] at hrun
    subst hrun
    simp
  | cons xc rest ih =>
    intro space table id hrun
    obtain ⟨x, c⟩ := xc
    cases hcall : space.call P x c with
    | assertion_failure s => simp [SearchSpace.run, hcall] at hrun
    | ok space1 =>
      simp only [SearchSpace.run, hcall] at hrun
      rw [ih space1 table id hrun]
      obtain ⟨-, -, hother, -⟩ := call_ok_frame hcall
      obtain ⟨-, hkeep, hchange⟩ := call_ok_status hcall
      by_cases hx : x = id
      · subst hx
        cases hk : c.keeps_status with
        | true =>
          rw [hkeep hk]
          simp [hk]
        | false =>
          have h1 := hchange hk
          simp [hk, h1]
      · have hid : id ≠ x := fun h => hx h.symm
        rw [hother id hid]
        simp [hx]

/-- C17 as stated fails: after the single call `set_h_dirty` on `s0`, a mutating
operation of the view has been applied to `s0`, and its status is still NEW. -/
theorem status_new_after_set_h_dirty :
    ((SearchSpace.create scenario_mode).run scenario_policy dirty_calls).succeeded = true ∧
    (((SearchSpace.create scenario_mode).run scenario_policy
        dirty_calls).state.search_node_infos s0).status = NodeStatus.NEW ∧
    (((SearchSpace.create scenario_mode).run scenario_policy
        dirty_calls).state.search_node_infos s0).h_is_dirty = true ∧
    ((SearchSpace.create scenario_mode).search_node_infos s0).h_is_dirty = false := by
  decide

/-- C17, amended: let `table` be left by a returning sequence of calls from the
untouched table.  Then for every state the status is NEW if and only if every
call made on its view was one of `increase_h`, `set_h_dirty`, `clear_h_dirty`,
that is, if and only if none of `open_initial`, `open`, the multi-step open,
`reopen`, `update_parent`, `close`, `mark_as_dead_end` was applied to it. -/
theorem status_new_iff_no_status_call (P : CostPolicy) (mode : OperatorCost)
    (calls : List (StateID × Call)) (table : SearchSpace) (id : StateID)
    (hrun : (SearchSpace.create mode).run P calls = Result.ok table) :
    (table.search_node_infos id).status = NodeStatus.NEW ↔
      ∀ xc ∈ calls, xc.1 = id → xc.2.keeps_status = true := by
  rw [run_status_new_iff P calls _ table id hrun]
  exact ⟨fun h => h.2, fun h => ⟨rfl, h⟩⟩

/-- Witness of C17, amended: after scenario 3 the state `s4`, on which no call
was made, is NEW, and `s2`, which was opened, is not. -/
theorem status_new_iff_no_status_call_witness :
    ((SearchSpace.create scenario_mode).run scenario_policy reopen_calls
        = Result.ok
            ((SearchSpace.create scenario_mode).run scenario_policy reopen_calls).state) ∧
    ((((SearchSpace.create scenario_mode).run scenario_policy
          reopen_calls).state.search_node_infos s4).status = NodeStatus.NEW ↔
      ∀ xc ∈ reopen_calls, xc.1 = s4 → xc.2.keeps_status = true) ∧
    (((SearchSpace.create scenario_mode).run scenario_policy
        reopen_calls).state.search_node_infos s4).status = NodeStatus.NEW ∧
    (((SearchSpace.create scenario_mode).run scenario_policy
        reopen_calls).state.search_node_infos s2).status = NodeStatus.OPEN :=
  ⟨rfl,
   status_new_iff_no_status_call scenario_policy scenario_mode reopen_calls _ s4 rfl,
   by decide, by decide⟩

/-! ### Termination of `trace_path` -/

/-- A returning single-operator or multi-step `open` was made on a record with
status NEW. -/
theorem call_ok_opened_new {P : CostPolicy} {space space1 : SearchSpace} {x : StateID}
    {c : Call} (hcall : space.call P x c = Result.ok space1)
    (hc : (∃ h p op, c = Call.open h p op) ∨ (∃ h p steps, c = Call.open_steps h p steps)) :
    (space.search_node_infos x).status = NodeStatus.NEW := by
  have hx : x ≠ StateID.no_state := (call_ok_frame hcall).1
  rw [SearchSpace.call, get_node_of_ne _ hx] at hcall
  rcases hc with ⟨h, p, op, rfl⟩ | ⟨h, p, steps, rfl⟩
  · by_cases hp : p = StateID.no_state
    · simp [SearchSpace.get_node, SearchNode.create, hp] at hcall
    · simp only [get_node_of_ne _ hp, SearchNode.open] at hcall
      split at hcall
      · assumption
      · simp [Result.map] at hcall
  · by_cases hp : p = StateID.no_state
    · simp [SearchSpace.get_node, SearchNode.create, hp] at hcall
    · simp only [get_node_of_ne _ hp, SearchNode.open_steps] at hcall
      split at hcall
      · assumption
      · simp [Result.map] at hcall

/-- A returning call never brings a status back to NEW. -/
theorem call_ok_status_not_new {P : CostPolicy} {space space1 : SearchSpace}
    {x : StateID} {c : Call} (hcall : space.call P x c = Result.ok space1)
    (y : StateID) (hy : (space.search_node_infos y).status ≠ NodeStatus.NEW) :
    (space1.search_node_infos y).status ≠ NodeStatus.NEW := by
  obtain ⟨-, -, hother, -⟩ := call_ok_frame hcall
  obtain ⟨-, hkeep, hchange⟩ := call_ok_status hcall
  by_cases hyx : y = x
  · subst hyx
    cases hk : c.keeps_status with
    | true => rw [hkeep hk]; exact hy
    | false => exact hchange hk
  · rw [hother y hyx]; exact hy

/-- When parents are not NEW, every state that a chain visits after its first
has a status other than NEW. -/
theorem chain_visited_not_new {space : SearchSpace} {id : StateID}
    {visited : List StateID} {ops : List Operator} (hc : Chain space id visited ops)
    (hparents : ParentsNotNew space) :
    ∀ y ∈ visited, y = id ∨ (space.search_node_infos y).status ≠ NodeStatus.NEW := by
  induction hc with
  | root hop hpar =>
    intro y hy
    exact Or.inl (List.mem_singleton.mp hy)
  | link hop hrest ih =>
    intro y hy
    rcases List.mem_cons.mp hy with hy | hy
    · exact Or.inl hy
    · rcases ih y hy with h | h
      · right
        rw [h]
        exact hparents _ _ hop
      · exact Or.inr h

/-- The last state that a chain visits has no creating operator. -/
theorem chain_last_is_root {space : SearchSpace} {id : StateID}
    {visited : List StateID} {ops : List Operator} (hc : Chain space id visited ops) :
    ∃ root, visited.getLast? = some root ∧
      (space.search_node_infos root).creating_operator = none := by
  induction hc with
  | root hop hpar => exact ⟨_, rfl, hop⟩
  | @link id op visited ops hop hrest ih =>
    obtain ⟨root, hlast, hroot⟩ := ih
    refine ⟨root, ?_, hroot⟩
    cases visited with
    | nil => simp at hlast
    | cons a t => rw [List.getLast?_cons_cons]; exact hlast

/-- A returning permitted call keeps the three facts that make `trace_path`
end: records with status NEW hold the defaults, parents are not NEW, and every
state has a chain without repetition. -/
theorem permitted_call_keeps_chains {P : CostPolicy} {space space1 : SearchSpace}
    {x : StateID} {c : Call} (hcall : space.call P x c = Result.ok space1)
    (hperm : call_permitted space c)
    (hnew : NewIsDefault space) (hparents : ParentsNotNew space)
    (hchains : ∀ id, HasChain space id) :
    NewIsDefault space1 ∧ ParentsNotNew space1 ∧ ∀ id, HasChain space1 id := by
  obtain ⟨-, -, hother, heff⟩ := call_ok_frame hcall
  have hnew1 : NewIsDefault space1 :=
    (@established_step_matches P space space1 x c (fun _ => False) hcall
      (fun _ h => h.elim) hnew).2
  have hmono := call_ok_status_not_new hcall
  -- the chains of a call that leaves creating operator and parent of `x`
  have hkept :
      (space1.search_node_infos x).creating_operator
          = (space.search_node_infos x).creating_operator →
      (space1.search_node_infos x).parent_state_id
          = (space.search_node_infos x).parent_state_id →
      ParentsNotNew space1 ∧ ∀ id, HasChain space1 id := by
    intro hop hpar
    have hfields : ∀ i,
        (space1.search_node_infos i).creating_operator
            = (space.search_node_infos i).creating_operator ∧
        (space1.search_node_infos i).parent_state_id
            = (space.search_node_infos i).parent_state_id := by
      intro i
      by_cases hix : i = x
      · rw [hix]; exact ⟨hop, hpar⟩
      · rw [hother i hix]; exact ⟨rfl, rfl⟩
    refine ⟨fun id op hid => ?_, fun id => ?_⟩
    · rw [(hfields id).2]
      rw [(hfields id).1] at hid
      exact hmono _ (hparents id op hid)
    · obtain ⟨visited, ops, hc, hnd⟩ := hchains id
      exact ⟨visited, ops, chain_frame hc (fun i _ => hfields i), hnd⟩
  -- the chains of a call that opens `x`, so far NEW, from `p` with `op`
  have hopened : ∀ (p : StateID) (op : Operator),
      (space.search_node_infos x).status = NodeStatus.NEW →
      (space.search_node_infos p).status ≠ NodeStatus.NEW →
      (space1.search_node_infos x).creating_operator = some op →
      (space1.search_node_infos x).parent_state_id = p →
      ParentsNotNew space1 ∧ ∀ id, HasChain space1 id := by
    intro p op hxnew hpnew hop hpar
    have hpx : p ≠ x := fun hpx => hpnew (hpx ▸ hxnew)
    have hframe : ∀ (id : StateID) (visited : List StateID) (ops : List Operator),
        id ≠ x → Chain space id visited ops →
        x ∉ visited ∧ Chain space1 id visited ops := by
      intro id visited ops hidx hc
      have hxv : x ∉ visited := by
        intro hxv
        rcases chain_visited_not_new hc hparents x hxv with h | h
        · exact hidx h.symm
        · exact h hxnew
      refine ⟨hxv, chain_frame hc (fun i hi => ?_)⟩
      have hix : i ≠ x := fun hix => hxv (hix ▸ hi)
      rw [hother i hix]
      exact ⟨rfl, rfl⟩
    refine ⟨fun id o hid => ?_, fun id => ?_⟩
    · by_cases hidx : id = x
      · subst hidx
        rw [hpar]
        exact hmono p hpnew
      · rw [hother id hidx] at hid ⊢
        exact hmono _ (hparents id o hid)
    · by_cases hidx : id = x
      · subst hidx
        obtain ⟨visited, ops, hc, hnd⟩ := hchains p
        obtain ⟨hxv, hc1⟩ := hframe p visited ops hpx hc
        exact ⟨id :: visited, ops ++ [op], Chain.link hop (by rw [hpar]; exact hc1),
          List.nodup_cons.mpr ⟨hxv, hnd⟩⟩
      · obtain ⟨visited, ops, hc, hnd⟩ := hchains id
        exact ⟨visited, ops, (hframe id visited ops hidx hc).2, hnd⟩
  rcases c with h | ⟨h, p, op⟩ | ⟨h, p, steps⟩ | ⟨p, op⟩ | ⟨p, op⟩ | h | _ | _ | _ | _
  · obtain ⟨hst, hop, hpar, -, -, -⟩ := heff
    obtain ⟨dop, dpar, -, -⟩ := hnew x hst
    exact ⟨hnew1, hkept (hop.trans dop.symm) (hpar.trans dpar.symm)⟩
  · obtain ⟨hop, hpar, -, -, -⟩ := heff
    exact ⟨hnew1, hopened p op (call_ok_opened_new hcall (Or.inl ⟨h, p, op, rfl⟩))
      hperm hop hpar⟩
  · obtain ⟨hop, hpar, -, -, -⟩ := heff
    obtain ⟨hpnew, hne⟩ := hperm
    rw [List.getLast?_eq_getLast _ hne] at hop
    exact ⟨hnew1, hopened p _ (call_ok_opened_new hcall (Or.inr ⟨h, p, steps, rfl⟩))
      hpnew hop hpar⟩
  · exact hperm.elim
  · exact hperm.elim
  all_goals
    obtain ⟨hop, hpar, -, -, -⟩ := heff
    exact ⟨hnew1, hkept hop hpar⟩

/-- A returning sequence of permitted calls keeps the three facts that make
`trace_path` end. -/
theorem permitted_run_keeps_chains (P : CostPolicy) :
    ∀ (calls : List (StateID × Call)) (space table : SearchSpace),
      NewIsDefault space → ParentsNotNew space → (∀ id, HasChain space id) →
      calls_permitted P space calls →
      space.run P calls = Result.ok table →
      ∀ id, HasChain table id := by
  intro calls
  induction calls with
  | nil =>
    intro space table _ _ hchains _ hrun
    simp only [SearchSpace.run, Result.ok.injEq] at hrun
    subst hrun
    exact hchains
  | cons xc rest ih =>
    intro space table hnew hparents hchains hperm hrun
    obtain ⟨x, c⟩ := xc
    cases hcall : space.call P x c with
    | assertion_failure s => simp [SearchSpace.run, hcall] at hrun
    | ok space1 =>
      simp only [SearchSpace.run, hcall] at hrun
      simp only [calls_permitted, hcall, Result.state] at hperm
      obtain ⟨hnew1, hparents1, hchains1⟩ :=
        permitted_call_keeps_chains hcall hperm.1 hnew hparents hchains
      exact ih space1 table hnew1 hparents1 hchains1 hperm.2 hrun

/-- C20: let `table` be left by a returning sequence of calls from the untouched
table, none of them `update_parent` or `reopen`, each single-operator and
multi-step `open` made from a parent whose status is not NEW, each multi-step
open with at least one step.  Then from every state the walk of `trace_path`
along the parents visits no state twice and ends at a record without creating
operator, and `trace_path` returns once the fuel covers the visited states. -/
theorem trace_path_terminates (P : CostPolicy) (mode : OperatorCost)
    (calls : List (StateID × Call)) (table : SearchSpace) (id : StateID)
    (hrun : (SearchSpace.create mode).run P calls = Result.ok table)
    (hperm : calls_permitted P (SearchSpace.create mode) calls) :
    ∃ (visited : List StateID) (path : List Operator),
      Chain table id visited path ∧ visited.Nodup ∧
      (∃ root, visited.getLast? = some root ∧
        (table.search_node_infos root).creating_operator = none) ∧
      ∀ fuel, visited.length ≤ fuel →
        table.trace_path fuel { id := id } [] = some (Result.ok path) := by
  have hnew : NewIsDefault (SearchSpace.create mode) :=
    fun i _ => ⟨rfl, rfl, rfl, rfl⟩
  have hparents : ParentsNotNew (SearchSpace.create mode) := by
    intro i op hop
    cases hop
  have hchains : ∀ i, HasChain (SearchSpace.create mode) i :=
    fun i => ⟨[i], [], Chain.root rfl rfl, List.nodup_singleton i⟩
  obtain ⟨visited, path, hc, hnd⟩ :=
    permitted_run_keeps_chains P calls _ table hnew hparents hchains hperm hrun id
  exact ⟨visited, path, hc, hnd, chain_last_is_root hc,
    fun fuel hfuel => chain_trace_path hc fuel hfuel⟩

/-- Witness of C20: after the root `s0`, `s1` opened from `s0` with `a`, and
`s3` opened from `s1` with `[x, y]`, closed and marked as a dead end,
`trace_path(s3)` returns `[a, y]`. -/
theorem trace_path_terminates_witness :
    ((SearchSpace.create scenario_mode).run scenario_policy forward_calls
        = Result.ok
            ((SearchSpace.create scenario_mode).run scenario_policy forward_calls).state ∧
      calls_permitted scenario_policy (SearchSpace.create scenario_mode) forward_calls) ∧
    (∃ (visited : List StateID) (path : List Operator),
      Chain ((SearchSpace.create scenario_mode).run scenario_policy forward_calls).state
        s3 visited path ∧ visited.Nodup ∧
      (∃ root, visited.getLast? = some root ∧
        (((SearchSpace.create scenario_mode).run scenario_policy
            forward_calls).state.search_node_infos root).creating_operator = none) ∧
      ∀ fuel, visited.length ≤ fuel →
        ((SearchSpace.create scenario_mode).run scenario_policy
            forward_calls).state.trace_path fuel { id := s3 } []
          = some (Result.ok path)) ∧
    ((SearchSpace.create scenario_mode).run scenario_policy
        forward_calls).state.trace_path 3 { id := s3 } []
      = some (Result.ok [op_a, op_y]) := by
  have hperm :
      calls_permitted scenario_policy (SearchSpace.create scenario_mode) forward_calls :=
    ⟨trivial, by simp only [call_permitted]; decide,
      ⟨by simp only [call_permitted]; decide, trivial, trivial, trivial⟩⟩
  exact ⟨⟨rfl, hperm⟩,
    trace_path_terminates scenario_policy scenario_mode forward_calls _ s3 rfl hperm,
    by decide⟩

/-! ### Steps and the length of the parent -/

/-- The steps that a returning call leaves in the record of its state. -/
theorem call_ok_steps {P : CostPolicy} {space space1 : SearchSpace} {x : StateID}
    {c : Call} (hcall : space.call P x c = Result.ok space1) :
    call_steps_effect space space1 x c := by
  have hx : x ≠ StateID.no_state := (call_ok_frame hcall).1
  rw [SearchSpace.call, get_node_of_ne _ hx] at hcall
  rcases c with h | ⟨h, p, op⟩ | ⟨h, p, steps⟩ | ⟨p, op⟩ | ⟨p, op⟩ | h | _ | _ | _ | _
  · simp only [SearchNode.open_initial] at hcall
    split at hcall <;> simp [Result.map] at hcall
    subst hcall
    simp [SearchSpace.store, set_apply, call_steps_effect]
  · by_cases hp : p = StateID.no_state
    · simp [SearchSpace.get_node, SearchNode.create, hp] at hcall
    · simp only [get_node_of_ne _ hp, SearchNode.open] at hcall
      split at hcall <;> simp [Result.map] at hcall
      subst hcall
      simp [SearchSpace.store, set_apply, call_steps_effect]
  · by_cases hp : p = StateID.no_state
    · simp [SearchSpace.get_node, SearchNode.create, hp] at hcall
    · simp only [get_node_of_ne _ hp, SearchNode.open_steps] at hcall
      split at hcall <;> simp [Result.map] at hcall
      subst hcall
      simp [SearchSpace.store, set_apply, call_steps_effect]
  · by_cases hp : p = StateID.no_state
    · simp [SearchSpace.get_node, SearchNode.create, hp] at hcall
    · simp only [get_node_of_ne _ hp] at hcall
      by_cases hst : (space.search_node_infos x).status = NodeStatus.OPEN ∨
          (space.search_node_infos x).status = NodeStatus.CLOSED
      · simp only [SearchNode.reopen, SearchNode.update_parent, if_pos hst, Result.map,
          Result.ok.injEq] at hcall
        subst hcall
        cases hs : (space.search_node_infos x).steps <;>
          simp [SearchSpace.store, set_apply, call_steps_effect, hs]
      · simp [SearchNode.reopen, SearchNode.update_parent, hst, Result.map] at hcall
  · by_cases hp : p = StateID.no_state
    · simp [SearchSpace.get_node, SearchNode.create, hp] at hcall
    · simp only [get_node_of_ne _ hp] at hcall
      by_cases hst : (space.search_node_infos x).status = NodeStatus.OPEN ∨
          (space.search_node_infos x).status = NodeStatus.CLOSED
      · simp only [SearchNode.update_parent, if_pos hst, Result.map,
          Result.ok.injEq] at hcall
        subst hcall
        cases hs : (space.search_node_infos x).steps <;>
          simp [SearchSpace.store, set_apply, call_steps_effect, hs]
      · simp [SearchNode.update_parent, hst, Result.map] at hcall
  · simp only [SearchNode.increase_h] at hcall
    split at hcall <;> simp [Result.map] at hcall
    subst hcall
    simp [SearchSpace.store, set_apply, call_steps_effect]
  · simp [SearchNode.set_h_dirty, Result.map] at hcall
    subst hcall
    simp [SearchSpace.store, set_apply, call_steps_effect]
  · simp [SearchNode.clear_h_dirty, Result.map] at hcall
    subst hcall
    simp [SearchSpace.store, set_apply, call_steps_effect]
  · simp only [SearchNode.close] at hcall
    split at hcall <;> simp [Result.map] at hcall
    subst hcall
    simp [SearchSpace.store, set_apply, call_steps_effect]
  · simp [SearchNode.mark_as_dead_end, Result.map] at hcall
    subst hcall
    simp [SearchSpace.store, set_apply, call_steps_effect]

/-- A call that leaves creating operator, parent, length and steps of `x` as
they were, and does not bring its status back to NEW, keeps the facts about
steps for every state. -/
theorem steps_after_kept {space space1 : SearchSpace} {x : StateID} {E : StateID → Prop}
    (hother : ∀ i, i ≠ x → space1.search_node_infos i = space.search_node_infos i)
    (hnosteps : NewHasNoSteps space) (hlast : ∀ id, LastStepMatches space id)
    (hE : ∀ id, E id → StepsMatchLength space id)
    (hop : (space1.search_node_infos x).creating_operator
      = (space.search_node_infos x).creating_operator)
    (hpar : (space1.search_node_infos x).parent_state_id
      = (space.search_node_infos x).parent_state_id)
    (hlen : (space1.search_node_infos x).length = (space.search_node_infos x).length)
    (hsteps : (space1.search_node_infos x).steps = (space.search_node_infos x).steps)
    (hst : (space1.search_node_infos x).status = NodeStatus.NEW →
      (space.search_node_infos x).status = NodeStatus.NEW) :
    NewHasNoSteps space1 ∧ (∀ id, LastStepMatches space1 id) ∧
    ∀ id, E id → StepsMatchLength space1 id := by
  have hfields : ∀ i,
      (space1.search_node_infos i).creating_operator
          = (space.search_node_infos i).creating_operator ∧
      (space1.search_node_infos i).parent_state_id
          = (space.search_node_infos i).parent_state_id ∧
      (space1.search_node_infos i).length = (space.search_node_infos i).length ∧
      (space1.search_node_infos i).steps = (space.search_node_infos i).steps ∧
      ((space1.search_node_infos i).status = NodeStatus.NEW →
        (space.search_node_infos i).status = NodeStatus.NEW) := by
    intro i
    by_cases hix : i = x
    · rw [hix]; exact ⟨hop, hpar, hlen, hsteps, hst⟩
    · rw [hother i hix]; exact ⟨rfl, rfl, rfl, rfl, id⟩
  refine ⟨fun i hi => ?_, fun i steps hi => ?_, fun i hEi steps hi => ?_⟩
  · rw [(hfields i).2.2.2.1]
    exact hnosteps i ((hfields i).2.2.2.2 hi)
  · rw [(hfields i).2.2.2.1] at hi
    rw [(hfields i).1]
    exact hlast i steps hi
  · rw [(hfields i).2.2.2.1] at hi
    rw [(hfields i).2.2.1, (hfields i).2.1, (hfields _).2.2.1]
    exact hE i hEi steps hi

/-- A call that links `x`, leaving it with a status other than NEW and with
steps whose last element is its creating operator, keeps the facts about steps
for every state whose parent is not `x`. -/
theorem steps_after_link {space space1 : SearchSpace} {x : StateID} {E : StateID → Prop}
    (hother : ∀ i, i ≠ x → space1.search_node_infos i = space.search_node_infos i)
    (hnosteps : NewHasNoSteps space) (hlast : ∀ id, LastStepMatches space id)
    (hE : ∀ id, E id → StepsMatchLength space id)
    (hst : (space1.search_node_infos x).status ≠ NodeStatus.NEW)
    (hlastx : LastStepMatches space1 x) :
    NewHasNoSteps space1 ∧ (∀ id, LastStepMatches space1 id) ∧
    ∀ id, id ≠ x → E id → (space.search_node_infos id).parent_state_id ≠ x →
      StepsMatchLength space1 id := by
  refine ⟨fun i hi => ?_, fun i => ?_, fun i hix hEi hpar steps hi => ?_⟩
  · by_cases hix : i = x
    · rw [hix] at hi; exact absurd hi hst
    · rw [hother i hix] at hi ⊢; exact hnosteps i hi
  · by_cases hix : i = x
    · rw [hix]; exact hlastx
    · intro steps hi
      rw [hother i hix] at hi ⊢
      exact hlast i steps hi
  · rw [hother i hix] at hi ⊢
    rw [hother _ hpar]
    exact hE i hEi steps hi

/-- One returning call: the states that `steps_kept_step` keeps have as many
steps as their length exceeds that of their parent, and the other facts about
steps hold for every state. -/
theorem steps_kept_step_matches {P : CostPolicy} {space space1 : SearchSpace}
    {x : StateID} {c : Call} {E : StateID → Prop}
    (hcall : space.call P x c = Result.ok space1)
    (hnew : NewIsDefault space) (hnosteps : NewHasNoSteps space)
    (hlast : ∀ id, LastStepMatches space id)
    (hE : ∀ id, E id → StepsMatchLength space id) :
    NewIsDefault space1 ∧ NewHasNoSteps space1 ∧ (∀ id, LastStepMatches space1 id) ∧
    ∀ id, steps_kept_step space x c E id → StepsMatchLength space1 id := by
  obtain ⟨-, -, hother, heff⟩ := call_ok_frame hcall
  have hsteps := call_ok_steps hcall
  have hnew1 : NewIsDefault space1 :=
    (@established_step_matches P space space1 x c (fun _ => False) hcall
      (fun _ h => h.elim) hnew).2
  refine ⟨hnew1, ?_⟩
  rcases c with h | ⟨h, p, op⟩ | ⟨h, p, steps⟩ | ⟨p, op⟩ | ⟨p, op⟩ | h | _ | _ | _ | _
  · -- open_initial
    obtain ⟨hst, hop, hpar, hlen, -, hst1⟩ := heff
    obtain ⟨dop, dpar, dlen, -⟩ := hnew x hst
    exact steps_after_kept hother hnosteps hlast hE (hop.trans dop.symm)
      (hpar.trans dpar.symm) (hlen.trans dlen.symm) hsteps (fun h => absurd h hst1)
  · -- open
    obtain ⟨-, -, -, -, hst1⟩ := heff
    have hxnew := call_ok_opened_new hcall (Or.inl ⟨h, p, op, rfl⟩)
    have hnone : (space1.search_node_infos x).steps = none :=
      hsteps.trans (hnosteps x hxnew)
    obtain ⟨h1, h2, h3⟩ := steps_after_link hother hnosteps hlast hE hst1
      (fun steps hs => by rw [hnone] at hs; cases hs)
    refine ⟨h1, h2, fun id hid => ?_⟩
    by_cases hidx : id = x
    · intro steps hs
      rw [hidx, hnone] at hs
      cases hs
    · exact h3 id hidx (hid hidx).1 (hid hidx).2
  · -- open_steps
    obtain ⟨hop, hpar, hlen, -, hst1⟩ := heff
    have hsome : (space1.search_node_infos x).steps = some steps := hsteps
    obtain ⟨h1, h2, h3⟩ := steps_after_link hother hnosteps hlast hE hst1
      (fun s hs => by
        rw [hsome] at hs
        cases hs
        exact hop.symm)
    refine ⟨h1, h2, fun id hid => ?_⟩
    by_cases hidx : id = x
    · have hpx : p ≠ x := hid.1 hidx
      intro s hs
      rw [hidx] at hs ⊢
      rw [hsome] at hs
      cases hs
      rw [hlen, hpar, hother p hpx]
      omega
    · exact h3 id hidx (hid.2 hidx).1 (hid.2 hidx).2
  · -- reopen
    obtain ⟨-, -, -, -, hst1⟩ := heff
    have hnone : (space1.search_node_infos x).steps = none := hsteps
    obtain ⟨h1, h2, h3⟩ := steps_after_link hother hnosteps hlast hE hst1
      (fun steps hs => by rw [hnone] at hs; cases hs)
    refine ⟨h1, h2, fun id hid => ?_⟩
    by_cases hidx : id = x
    · intro steps hs
      rw [hidx, hnone] at hs
      cases hs
    · exact h3 id hidx (hid hidx).1 (hid hidx).2
  · -- update_parent
    obtain ⟨-, -, -, -, hst1⟩ := heff
    have hnone : (space1.search_node_infos x).steps = none := hsteps
    obtain ⟨h1, h2, h3⟩ := steps_after_link hother hnosteps hlast hE hst1
      (fun steps hs => by rw [hnone] at hs; cases hs)
    refine ⟨h1, h2, fun id hid => ?_⟩
    by_cases hidx : id = x
    · intro steps hs
      rw [hidx, hnone] at hs
      cases hs
    · exact h3 id hidx (hid hidx).1 (hid hidx).2
  all_goals
    obtain ⟨hop, hpar, hlen, -, hst⟩ := heff
    exact steps_after_kept hother hnosteps hlast hE hop hpar hlen hsteps hst

/-- A returning sequence of calls: the last step of every state with steps is
its creating operator, and the states that `steps_kept` keeps have as many
steps as their length exceeds that of their parent. -/
theorem steps_kept_matches (P : CostPolicy) :
    ∀ (calls : List (StateID × Call)) (space table : SearchSpace) (E : StateID → Prop),
      NewIsDefault space → NewHasNoSteps space → (∀ id, LastStepMatches space id) →
      (∀ id, E id → StepsMatchLength space id) →
      space.run P calls = Result.ok table →
      (∀ id, LastStepMatches table id) ∧
      ∀ id, steps_kept P space calls E id → StepsMatchLength table id := by
  intro calls
  induction calls with
  | nil =>
    intro space table E _ _ hlast hE hrun
    simp only [SearchSpace.run, Result.ok.injEq] at hrun
    subst hrun
    exact ⟨hlast, hE⟩
  | cons xc rest ih =>
    intro space table E hnew hnosteps hlast hE hrun
    obtain ⟨x, c⟩ := xc
    cases hcall : space.call P x c with
    | assertion_failure s => simp [SearchSpace.run, hcall] at hrun
    | ok space1 =>
      simp only [SearchSpace.run, hcall] at hrun
      obtain ⟨hnew1, hnosteps1, hlast1, hE1⟩ :=
        steps_kept_step_matches hcall hnew hnosteps hlast hE
      have hrest := ih space1 table _ hnew1 hnosteps1 hlast1 hE1 hrun
      refine ⟨hrest.1, fun id hid => hrest.2 id ?_⟩
      simpa only [steps_kept, hcall, Result.state] using hid

/-- C16 as stated fails.  After the chain `s0 -a-> s1 -b-> s2`, the multi-step
open of `s3` from `s2` with `[x, y]` and the `reopen` of `s2` from `s0`, the
record of `s3` has status OPEN, steps `[x, y]`, length 4 and parent `s2`, whose
record now has length 1: the difference is 3, not 2. -/
theorem steps_differ_from_length_gap :
    ((SearchSpace.create scenario_mode).run scenario_policy reparent_calls).succeeded
      = true ∧
    (((SearchSpace.create scenario_mode).run scenario_policy
        reparent_calls).state.search_node_infos s3).status = NodeStatus.OPEN ∧
    (((SearchSpace.create scenario_mode).run scenario_policy
        reparent_calls).state.search_node_infos s3).steps = some [op_x, op_y] ∧
    (((SearchSpace.create scenario_mode).run scenario_policy
        reparent_calls).state.search_node_infos s3).parent_state_id = s2 ∧
    (((SearchSpace.create scenario_mode).run scenario_policy
        reparent_calls).state.search_node_infos s3).length = 4 ∧
    (((SearchSpace.create scenario_mode).run scenario_policy
        reparent_calls).state.search_node_infos s2).length = 1 ∧
    (([op_x, op_y].length : Int)
      ≠ (((SearchSpace.create scenario_mode).run scenario_policy
            reparent_calls).state.search_node_infos s3).length
        - (((SearchSpace.create scenario_mode).run scenario_policy
            reparent_calls).state.search_node_infos s2).length) := by
  decide

/-- C16, amended: let `table` be left by a returning sequence of lifecycle calls
from the untouched table, and let `id` have steps in it.  Then the last element
of the steps is the creating operator of `id`; and the steps are as many as the
length of `id` exceeds the length stored for its parent, provided the parent
has been left alone since `id` was opened (`ParentLeftAlone`). -/
theorem steps_match_record (P : CostPolicy) (mode : OperatorCost)
    (calls : List (StateID × Call)) (table : SearchSpace) (id : StateID)
    (steps : List Operator)
    (hrun : (SearchSpace.create mode).run P calls = Result.ok table)
    (hsteps : (table.search_node_infos id).steps = some steps) :
    steps.getLast? = (table.search_node_infos id).creating_operator ∧
    (ParentLeftAlone P mode calls id →
      (steps.length : Int)
        = (table.search_node_infos id).length
          - (table.search_node_infos
              (table.search_node_infos id).parent_state_id).length) := by
  have hnew : NewIsDefault (SearchSpace.create mode) := fun i _ => ⟨rfl, rfl, rfl, rfl⟩
  have hnosteps : NewHasNoSteps (SearchSpace.create mode) := fun i _ => rfl
  have hlast : ∀ i, LastStepMatches (SearchSpace.create mode) i := by
    intro i s hs
    cases hs
  have hE : ∀ i, (fun _ : StateID => True) i →
      StepsMatchLength (SearchSpace.create mode) i := by
    intro i _ s hs
    cases hs
  obtain ⟨h1, h2⟩ := steps_kept_matches P calls _ table _ hnew hnosteps hlast hE hrun
  exact ⟨h1 id steps hsteps, fun hkept => h2 id hkept steps hsteps⟩

/-- Witness of C16, amended: after the root `s0`, `s1` opened from `s0`, and `s3`
opened from `s1` with `[x, y]`, closed and marked as a dead end, the parent `s1`
has been left alone; `s3` has steps `[x, y]`, creating operator `y`, length 3,
and its parent has length 1. -/
theorem steps_match_record_witness :
    ((SearchSpace.create scenario_mode).run scenario_policy forward_calls
        = Result.ok
            ((SearchSpace.create scenario_mode).run scenario_policy forward_calls).state ∧
      (((SearchSpace.create scenario_mode).run scenario_policy
          forward_calls).state.search_node_infos s3).steps = some [op_x, op_y]) ∧
    ([op_x, op_y].getLast?
        = (((SearchSpace.create scenario_mode).run scenario_policy
            forward_calls).state.search_node_infos s3).creating_operator ∧
      (ParentLeftAlone scenario_policy scenario_mode forward_calls s3 →
        (([op_x, op_y].length : Nat) : Int)
          = (((SearchSpace.create scenario_mode).run scenario_policy
              forward_calls).state.search_node_infos s3).length
            - (((SearchSpace.create scenario_mode).run scenario_policy
                forward_calls).state.search_node_infos
                (((SearchSpace.create scenario_mode).run scenario_policy
                  forward_calls).state.search_node_infos s3).parent_state_id).length)) ∧
    ParentLeftAlone scenario_policy scenario_mode forward_calls s3 ∧
    (((SearchSpace.create scenario_mode).run scenario_policy
        forward_calls).state.search_node_infos s3).length = 3 ∧
    (((SearchSpace.create scenario_mode).run scenario_policy
        forward_calls).state.search_node_infos s1).length = 1 := by
  have hkept : ParentLeftAlone scenario_policy scenario_mode forward_calls s3 :=
    ⟨fun _ => by decide, fun h => absurd rfl h⟩
  exact ⟨⟨rfl, by decide⟩,
    steps_match_record scenario_policy scenario_mode forward_calls _ s3 [op_x, op_y]
      rfl (by decide),
    hkept, by decide, by decide⟩

end Cedalion
